import Mathlib

/-!
Verification development for the navidown navigable-markdown session
(github.com/boolean-maybe/navidown).

The Go package is shallowly embedded here:

* machine integers (`int`) become `Int`;
* Go slices become `List`s (a Go append-at-end stack keeps its orientation:
  the top of a stack is the *last* list element);
* the mutable `MarkdownSession` receiver becomes explicit state passing:
  each method becomes a function `Session → ... → Session × result`;
* the external strategy interfaces held by the session (`Renderer`,
  `PositionCorrelator`, and the goldmark-backed parser behind
  `parseMarkdownWithSource`) become function-valued fields of `Session`.
  The correlator is modelled as a batch function: `correlatePositions` calls
  `CorrelatePosition` once per element in document order, threading the
  correlator's private state (the marker counters), so the whole loop is
  captured by one function from the element list to the per-element results;
* fallible operations return `Except`/`Option`; a Go runtime panic is
  modelled as `none`.

Definitions are translated from the Go sources in `navidown/` (principally
`markdown_session.go`, `history.go`, `markers.go`, `correlator.go`) and the
path resolver.  Definitions whose names end in `Spec` or start with `spec`
formalise the specification's wording for refinement comparisons.
-/

namespace Navidown

/-- NavElementType distinguishes between navigable element types
(`types.go`: `NavElementHeader`, `NavElementURL`). -/
inductive NavElementType where
  | header
  | url
deriving Repr, DecidableEq

/-- NavElement represents a navigable item (header or URL), `types.go`.
Positions are 0-indexed rendered-output coordinates. -/
structure NavElement where
  type : NavElementType
  text : String
  url : String
  level : Int
  slug : String
  sourceFilePath : String
  startLine : Int
  endLine : Int
  startCol : Int
  endCol : Int
deriving Repr, DecidableEq

instance : Inhabited NavElement :=
  ⟨{ type := NavElementType.header, text := "", url := "", level := 0, slug := "",
     sourceFilePath := "", startLine := 0, endLine := 0, startCol := 0, endCol := 0 }⟩

/-- PageState captures the full state of a markdown page for navigation
history (`types.go`).  The Go `Cleaner` interface value is kept as a plain
function. -/
structure PageState where
  markdown : String
  sourceFilePath : String
  selectedIndex : Int
  scrollOffset : Int
  elements : List NavElement
  renderedLines : List String
  cleaner : String → String
  width : Int

/-- NavigationHistory is the generic browser-like back/forward stack pair of
`history.go`.  The top of each stack is the last list element, matching Go's
append-at-end slices. -/
structure NavigationHistory (T : Type) where
  backStack : List T
  forwardStack : List T
  maxSize : Int

namespace NavigationHistory

variable {T : Type}

/-- trim keeps the most recent `maxSize` entries (`history.go` lines 17-26). -/
def trim (h : NavigationHistory T) (slice : List T) : List T :=
  if h.maxSize ≤ 0 then slice
  else if (slice.length : Int) ≤ h.maxSize then slice
  else slice.drop (slice.length - h.maxSize.toNat)

/-- NewNavigationHistory creates an empty history with the given maximum size. -/
def new (maxSize : Int) : NavigationHistory T :=
  { backStack := [], forwardStack := [], maxSize := maxSize }

/-- CanGoBack returns true if there are entries in the back stack. -/
def canGoBack (h : NavigationHistory T) : Bool :=
  0 < h.backStack.length

/-- CanGoForward returns true if there are entries in the forward stack. -/
def canGoForward (h : NavigationHistory T) : Bool :=
  0 < h.forwardStack.length

/-- Push adds a state to the back stack and clears the forward stack. -/
def push (h : NavigationHistory T) (state : T) : NavigationHistory T :=
  { h with backStack := h.trim (h.backStack ++ [state]), forwardStack := [] }

/-- Back pops from the back stack (returns the popped state and the new
history; `none` mirrors Go's `ok = false`). -/
def back (h : NavigationHistory T) : Option T × NavigationHistory T :=
  if ¬ h.canGoBack then (none, h)
  else (h.backStack.getLast?, { h with backStack := h.backStack.dropLast })

/-- Forward pops from the forward stack. -/
def forward (h : NavigationHistory T) : Option T × NavigationHistory T :=
  if ¬ h.canGoForward then (none, h)
  else (h.forwardStack.getLast?, { h with forwardStack := h.forwardStack.dropLast })

/-- PushToForward adds a state to the forward stack (no clearing). -/
def pushToForward (h : NavigationHistory T) (state : T) : NavigationHistory T :=
  { h with forwardStack := h.trim (h.forwardStack ++ [state]) }

/-- PushToBack adds a state to the back stack without clearing forward history. -/
def pushToBack (h : NavigationHistory T) (state : T) : NavigationHistory T :=
  { h with backStack := h.trim (h.backStack ++ [state]) }

/-- BackStackSize returns the number of entries in the back stack. -/
def backStackSize (h : NavigationHistory T) : Int :=
  (h.backStack.length : Int)

/-- ForwardStackSize returns the number of entries in the forward stack. -/
def forwardStackSize (h : NavigationHistory T) : Int :=
  (h.forwardStack.length : Int)

end NavigationHistory

/-- RenderResult is the rendered representation used by the viewer
(`renderer.go`).  A Go `nil` cleaner is `none`. -/
structure RenderResult where
  lines : List String
  cleaner : Option (String → String)

/-- Session is the mutable `MarkdownSession` of `markdown_session.go`.
The strategy interfaces are function-valued fields:

* `renderer w md` models `rendererForWidth(w).Render(md)` — the renderer
  invoked with word-wrap width `w` (`markdown_session.go` lines 212-231);
* `correlator elems lines cleaner` models the sequence of per-element
  `CorrelatePosition` calls made by `correlatePositions` after resetting the
  marker correlator: entry `i` is `some (lineIdx, startCol, endCol)` when the
  call for element `i` reported `found`, else `none`;
* `parseElements content sourcePath` models `parseMarkdownWithSource`
  (the goldmark walk producing the ordered element list). -/
structure Session where
  markdown : String
  currentSourceFile : String
  renderedLines : List String
  cleaner : String → String
  elements : List NavElement
  selectedIndex : Int
  scrollOffset : Int
  history : NavigationHistory PageState
  renderer : Int → String → Except String RenderResult
  correlator : List NavElement → List String → (String → String) → List (Option (Int × Int × Int))
  parseElements : String → String → List NavElement
  currentWidth : Int
  alwaysScrollToAnchor : Bool

/-- Options configures a session (`markdown_session.go`).  The renderer,
correlator and parser are taken as given (Go substitutes defaults for nil). -/
structure Options where
  renderer : Int → String → Except String RenderResult
  correlator : List NavElement → List String → (String → String) → List (Option (Int × Int × Int))
  parseElements : String → String → List NavElement
  historyMax : Int
  alwaysScrollToAnchor : Bool

/-- New creates a new session (`markdown_session.go` lines 83-105). -/
def newSession (opts : Options) : Session :=
  { markdown := ""
    currentSourceFile := ""
    renderedLines := []
    cleaner := fun s => s
    elements := []
    selectedIndex := -1
    scrollOffset := 0
    history := NavigationHistory.new (if opts.historyMax ≤ 0 then 50 else opts.historyMax)
    renderer := opts.renderer
    correlator := opts.correlator
    parseElements := opts.parseElements
    currentWidth := 0
    alwaysScrollToAnchor := opts.alwaysScrollToAnchor }

/-- Access a list of elements at a Go `int` index.  All call sites are
guarded by explicit bounds checks, as in the Go source. -/
def elemAtI (l : List NavElement) (i : Int) : NavElement :=
  l.getD i.toNat default

/-- Selected returns a copy of the currently selected element, or `none`
(`markdown_session.go` lines 158-164). -/
def selected (v : Session) : Option NavElement :=
  if v.selectedIndex < 0 ∨ (v.elements.length : Int) ≤ v.selectedIndex then none
  else some (elemAtI v.elements v.selectedIndex)

/-- setCleaner stores a cleaner, substituting the identity for Go `nil`
(`markdown_session.go` lines 233-238). -/
def setCleaner (v : Session) (c : Option (String → String)) : Session :=
  { v with cleaner := c.getD (fun s => s) }

/-- winningLen computes `usedPositions[key]` of `correlatePositions`: the
maximum `endCol - startCol` among found correlations sharing the
`(lineIdx, startCol)` key, or `none` when no found correlation has the key
(`markdown_session.go` lines 443-453). -/
def winningLen (results : List (Option (Int × Int × Int))) (key : Int × Int) : Option Int :=
  results.foldl
    (fun w r =>
      match r with
      | none => w
      | some (li, sc, ec) =>
          if (li, sc) = key then
            match w with
            | none => some (ec - sc)
            | some x => if x < ec - sc then some (ec - sc) else some x
          else w)
    none

/-- applyCorrelations writes each found position into its element when its
match length equals the winning length for its `(lineIdx, startCol)` key
(`markdown_session.go` lines 455-469).  Element `i` is paired with result
`i`; a missing result entry counts as not found. -/
def applyCorrelations (allResults : List (Option (Int × Int × Int))) :
    List NavElement → List (Option (Int × Int × Int)) → List NavElement
  | [], _ => []
  | e :: es, rs =>
      (match rs.headD none with
       | none => e
       | some (li, sc, ec) =>
           if winningLen allResults (li, sc) = some (ec - sc) then
             { e with startLine := li, endLine := li, startCol := sc, endCol := ec }
           else e) :: applyCorrelations allResults es rs.tail

/-- correlatePositions annotates elements with rendered positions
(`markdown_session.go` lines 406-470).  The batch `correlator` field stands
for the per-element `CorrelatePosition` calls made after `Reset`. -/
def correlatePositions (v : Session) : Session :=
  if v.elements.isEmpty ∨ v.renderedLines.isEmpty then v
  else
    let results := v.correlator v.elements v.renderedLines v.cleaner
    { v with elements := applyCorrelations results v.elements results }

/-- saveCurrentState snapshots the current page (`markdown_session.go`
lines 472-489); Go's deep copies of slices are value copies here. -/
def saveCurrentState (v : Session) : PageState :=
  { markdown := v.markdown
    sourceFilePath := v.currentSourceFile
    selectedIndex := v.selectedIndex
    scrollOffset := v.scrollOffset
    elements := v.elements
    renderedLines := v.renderedLines
    cleaner := v.cleaner
    width := v.currentWidth }

/-- restoreState restores a snapshot, clearing an out-of-bounds or
header-typed selection (`markdown_session.go` lines 491-511). -/
def restoreState (v : Session) (state : PageState) : Session :=
  let v' : Session :=
    { v with markdown := state.markdown
             currentSourceFile := state.sourceFilePath
             scrollOffset := state.scrollOffset
             currentWidth := state.width
             elements := state.elements
             renderedLines := state.renderedLines
             cleaner := state.cleaner
             selectedIndex := state.selectedIndex }
  if v'.selectedIndex < 0 ∨ (v'.elements.length : Int) ≤ v'.selectedIndex then
    { v' with selectedIndex := -1 }
  else if (elemAtI v'.elements v'.selectedIndex).type = NavElementType.header then
    { v' with selectedIndex := -1 }
  else v'

/-- SetMarkdownWithSource loads markdown with source file context
(`markdown_session.go` lines 312-338).  Returns the new session and
`some err` when the renderer failed (in which case the session is returned
untouched — nothing was mutated before the error return). -/
def setMarkdownWithSource (v : Session) (content sourceFilePath : String) (pushToHistory : Bool) :
    Session × Option String :=
  let tmpElements := v.parseElements content sourceFilePath
  match v.renderer v.currentWidth content with
  | Except.error e => (v, some e)
  | Except.ok rendered =>
      let v1 :=
        if pushToHistory ∧ v.markdown ≠ "" then
          { v with history := v.history.push (saveCurrentState v) }
        else v
      let v2 := { v1 with markdown := content
                          currentSourceFile := sourceFilePath
                          elements := tmpElements
                          renderedLines := rendered.lines }
      let v3 := correlatePositions (setCleaner v2 rendered.cleaner)
      ({ v3 with selectedIndex := -1, scrollOffset := 0 }, none)

/-- SetMarkdown loads markdown without source context
(`markdown_session.go` lines 306-308). -/
def setMarkdown (v : Session) (content : String) : Session × Option String :=
  setMarkdownWithSource v content "" false

/-- elementsMatch compares elements by slug (headers) or by URL and text
(links) (`markdown_session.go` lines 295-303). -/
def elementsMatch (e1 e2 : NavElement) : Bool :=
  if e1.type ≠ e2.type then false
  else if e1.type = NavElementType.header then e1.slug == e2.slug
  else e1.url == e2.url && e1.text == e2.text

/-- findElementNearLine finds the element whose `startLine` is closest to
the given line, earlier elements winning ties (`markdown_session.go`
lines 240-265). -/
def findElementNearLine (v : Session) (lineIdx : Int) : Option NavElement :=
  if v.elements.isEmpty then none
  else
    (v.elements.foldl
      (fun (acc : Option (NavElement × Int)) e =>
        let dist := if e.startLine - lineIdx < 0 then lineIdx - e.startLine else e.startLine - lineIdx
        match acc with
        | none => some (e, dist)
        | some (be, bd) => if dist < bd then some (e, dist) else some (be, bd))
      none).map (fun p => p.1)

/-- restoreScrollAndSelection restores the anchor scroll position and the
selected link after a re-render (`markdown_session.go` lines 267-293).
Note the early return when the selection is restored: the final scroll
clamp is skipped on that path, exactly as in the Go source. -/
def restoreScrollAndSelection (v : Session) (anchorElem selectedElem : Option NavElement) :
    Session :=
  let va :=
    match anchorElem with
    | none => v
    | some a =>
        match v.elements.findIdx? (fun e => elementsMatch e a) with
        | some i => { v with scrollOffset := (elemAtI v.elements (i : Int)).startLine }
        | none => v
  let clearAndClamp : Session → Session := fun w =>
    let w' := { w with selectedIndex := -1 }
    if 0 < w'.renderedLines.length ∧ (w'.renderedLines.length : Int) ≤ w'.scrollOffset then
      { w' with scrollOffset := (w'.renderedLines.length : Int) - 1 }
    else w'
  match selectedElem with
  | some se =>
      if se.type = NavElementType.url then
        match va.elements.findIdx? (fun e => elementsMatch e se) with
        | some i => { va with selectedIndex := (i : Int) }
        | none => clearAndClamp va
      else clearAndClamp va
  | none => clearAndClamp va

/-- SetWidth updates rendering width and re-renders if changed
(`markdown_session.go` lines 174-210 with `reRenderWithWidth`,
lines 212-222). -/
def setWidth (v : Session) (cols : Int) : Session × Bool :=
  let cols := if cols < 0 then 0 else cols
  if v.currentWidth = cols then (v, false)
  else if v.markdown = "" then ({ v with currentWidth := cols }, false)
  else
    let selectedElem := selected v
    let anchorElem :=
      if 0 ≤ v.scrollOffset ∧ v.scrollOffset < (v.renderedLines.length : Int) then
        match findElementNearLine v v.scrollOffset with
        | none => none
        | some a => if a.endCol ≤ a.startCol then none else some a
      else none
    let oldWidth := v.currentWidth
    let v1 := { v with currentWidth := cols }
    match v1.renderer cols v1.markdown with
    | Except.error _ => ({ v1 with currentWidth := oldWidth }, false)
    | Except.ok rendered =>
        let v2 := correlatePositions (setCleaner { v1 with renderedLines := rendered.lines } rendered.cleaner)
        (restoreScrollAndSelection v2 anchorElem selectedElem, true)

/-- CanGoBack (`markdown_session.go` line 514). -/
def canGoBack (v : Session) : Bool := v.history.canGoBack

/-- CanGoForward (`markdown_session.go` line 517). -/
def canGoForward (v : Session) : Bool := v.history.canGoForward

/-- GoBack navigates to the previous page in history
(`markdown_session.go` lines 520-534). -/
def goBack (v : Session) : Session × Bool :=
  if ¬ v.history.canGoBack then (v, false)
  else
    match v.history.back with
    | (none, _) => (v, false)
    | (some prevState, h') =>
        let v1 := { v with history := h'.pushToForward (saveCurrentState v) }
        (restoreState v1 prevState, true)

/-- GoForward navigates to the next page in forward history
(`markdown_session.go` lines 537-551). -/
def goForward (v : Session) : Session × Bool :=
  if ¬ v.history.canGoForward then (v, false)
  else
    match v.history.forward with
    | (none, _) => (v, false)
    | (some nextState, h') =>
        let v1 := { v with history := h'.pushToBack (saveCurrentState v) }
        (restoreState v1 nextState, true)

/-- clearSelectionIfOffScreen clears the selection when the selected element
is outside the viewport (`markdown_session.go` lines 553-570). -/
def clearSelectionIfOffScreen (v : Session) (viewportHeight : Int) : Session :=
  if v.selectedIndex < 0 ∨ (v.elements.length : Int) ≤ v.selectedIndex then v
  else if viewportHeight ≤ 0 then v
  else
    let elem := elemAtI v.elements v.selectedIndex
    if elem.endLine < v.scrollOffset then { v with selectedIndex := -1 }
    else if v.scrollOffset + viewportHeight ≤ elem.startLine then { v with selectedIndex := -1 }
    else v

/-- ScrollUp (`markdown_session.go` lines 573-580). -/
def scrollUp (v : Session) (viewportHeight : Int) : Session × Bool :=
  if 0 < v.scrollOffset then
    (clearSelectionIfOffScreen { v with scrollOffset := v.scrollOffset - 1 } viewportHeight, true)
  else (v, false)

/-- ScrollDown (`markdown_session.go` lines 583-594). -/
def scrollDown (v : Session) (viewportHeight : Int) : Session × Bool :=
  let maxOffset :=
    if (v.renderedLines.length : Int) - viewportHeight < 0 then 0
    else (v.renderedLines.length : Int) - viewportHeight
  if v.scrollOffset < maxOffset then
    (clearSelectionIfOffScreen { v with scrollOffset := v.scrollOffset + 1 } viewportHeight, true)
  else (v, false)

/-- pageLoop iterates a single-line scroll step, stopping at the first
failed step, as the `for` loops of `PageUp`/`PageDown` do. -/
def pageLoop (step : Session → Session × Bool) : Nat → Session → Bool → Session × Bool
  | 0, v, moved => (v, moved)
  | n + 1, v, moved =>
      match step v with
      | (v', true) => pageLoop step n v' true
      | (v', false) => (v', moved)

/-- PageUp scrolls up by one viewport (`markdown_session.go` lines 597-606). -/
def pageUp (v : Session) (viewportHeight : Int) : Session × Bool :=
  pageLoop (fun s => scrollUp s viewportHeight) viewportHeight.toNat v false

/-- PageDown scrolls down by one viewport (`markdown_session.go`
lines 609-618). -/
def pageDown (v : Session) (viewportHeight : Int) : Session × Bool :=
  pageLoop (fun s => scrollDown s viewportHeight) viewportHeight.toNat v false

/-- Home moves the viewport to the top (`markdown_session.go` lines 621-624). -/
def home (v : Session) (viewportHeight : Int) : Session :=
  clearSelectionIfOffScreen { v with scrollOffset := 0 } viewportHeight

/-- End moves the viewport to the bottom (`markdown_session.go`
lines 627-634); Go `End` is renamed to avoid clashing with Lean keywords. -/
def endScroll (v : Session) (viewportHeight : Int) : Session :=
  let maxOffset :=
    if (v.renderedLines.length : Int) - viewportHeight < 0 then 0
    else (v.renderedLines.length : Int) - viewportHeight
  clearSelectionIfOffScreen { v with scrollOffset := maxOffset } viewportHeight

/-- ensureVisible adjusts the scroll offset so the selected element is
within the viewport (`markdown_session.go` lines 636-654). -/
def ensureVisible (v : Session) (viewportHeight : Int) : Session :=
  if v.selectedIndex < 0 ∨ (v.elements.length : Int) ≤ v.selectedIndex then v
  else if viewportHeight ≤ 0 then v
  else
    let elem := elemAtI v.elements v.selectedIndex
    let v1 := if elem.startLine < v.scrollOffset then { v with scrollOffset := elem.startLine } else v
    let v2 :=
      if v1.scrollOffset + viewportHeight ≤ elem.endLine then
        { v1 with scrollOffset := elem.endLine - viewportHeight + 1 }
      else v1
    if v2.scrollOffset < 0 then { v2 with scrollOffset := 0 } else v2

/-- Valid-link test used by all traversal functions: a URL element whose
correlated span is non-empty. -/
def isValidLink (e : NavElement) : Bool :=
  e.type = NavElementType.url ∧ e.startCol < e.endCol

/-- findIdxFrom returns the first index `≥ start` whose element satisfies
the predicate. -/
def findIdxFrom (p : NavElement → Bool) (l : List NavElement) (start : Nat) : Option Nat :=
  ((l.drop start).findIdx? p).map (fun j => j + start)

/-- findIdxRevBefore returns the largest index `< stop` whose element
satisfies the predicate (the downward `for` loops of the Go source). -/
def findIdxRevBefore (p : NavElement → Bool) (l : List NavElement) (stop : Nat) : Option Nat :=
  ((l.take stop).reverse.findIdx? p).map (fun j => stop - 1 - j)

/-- MoveToNextLink moves selection to the next link element
(`markdown_session.go` lines 657-684). -/
def moveToNextLink (v : Session) (viewportHeight : Int) : Session × Bool :=
  if v.elements.isEmpty then (v, false)
  else if 0 ≤ v.selectedIndex then
    match findIdxFrom isValidLink v.elements (v.selectedIndex.toNat + 1) with
    | some i => (ensureVisible { v with selectedIndex := (i : Int) } viewportHeight, true)
    | none => (v, false)
  else
    match v.elements.findIdx?
        (fun e => isValidLink e ∧ v.scrollOffset ≤ e.startLine ∧
                  e.startLine < v.scrollOffset + viewportHeight) with
    | some i => (ensureVisible { v with selectedIndex := (i : Int) } viewportHeight, true)
    | none => (v, false)

/-- MoveToPreviousLink moves selection to the previous link element
(`markdown_session.go` lines 687-715). -/
def moveToPreviousLink (v : Session) (viewportHeight : Int) : Session × Bool :=
  if v.elements.isEmpty then (v, false)
  else if 0 ≤ v.selectedIndex then
    match findIdxRevBefore isValidLink v.elements v.selectedIndex.toNat with
    | some i => (ensureVisible { v with selectedIndex := (i : Int) } viewportHeight, true)
    | none => (v, false)
  else
    let viewportBottom := v.scrollOffset + viewportHeight - 1
    match findIdxRevBefore
        (fun e => isValidLink e ∧ v.scrollOffset ≤ e.startLine ∧ e.startLine ≤ viewportBottom)
        v.elements v.elements.length with
    | some i => (ensureVisible { v with selectedIndex := (i : Int) } viewportHeight, true)
    | none => (v, false)

/-- MoveToFirst selects the first valid link (`markdown_session.go`
lines 718-733). -/
def moveToFirst (v : Session) (viewportHeight : Int) : Session × Bool :=
  if v.elements.isEmpty then (v, false)
  else
    match v.elements.findIdx? isValidLink with
    | some i =>
        if v.selectedIndex ≠ (i : Int) then
          (ensureVisible { v with selectedIndex := (i : Int) } viewportHeight, true)
        else (v, false)
    | none => (v, false)

/-- MoveToLast selects the last valid link (`markdown_session.go`
lines 736-751). -/
def moveToLast (v : Session) (viewportHeight : Int) : Session × Bool :=
  if v.elements.isEmpty then (v, false)
  else
    match findIdxRevBefore isValidLink v.elements v.elements.length with
    | some i =>
        if v.selectedIndex ≠ (i : Int) then
          (ensureVisible { v with selectedIndex := (i : Int) } viewportHeight, true)
        else (v, false)
    | none => (v, false)

/-- FindHeaderBySlug returns the first header element matching the slug
(`markdown_session.go` lines 754-762). -/
def findHeaderBySlug (v : Session) (slug : String) : Option NavElement :=
  v.elements.find? (fun e => e.type = NavElementType.header ∧ e.slug = slug)

/-- ScrollToAnchor scrolls to a header by its slug (`markdown_session.go`
lines 767-797). -/
def scrollToAnchor (v : Session) (slug : String) (viewportHeight : Int) (pushToHistory : Bool) :
    Session × Bool :=
  match findHeaderBySlug v slug with
  | none => (v, false)
  | some header =>
      if ¬ v.alwaysScrollToAnchor ∧ v.scrollOffset ≤ header.startLine ∧
          header.startLine < v.scrollOffset + viewportHeight then
        (v, true)
      else
        let v1 :=
          if pushToHistory then { v with history := v.history.push (saveCurrentState v) } else v
        let v2 := { v1 with scrollOffset := header.startLine }
        let maxOffset :=
          if (v2.renderedLines.length : Int) - viewportHeight < 0 then 0
          else (v2.renderedLines.length : Int) - viewportHeight
        (if maxOffset < v2.scrollOffset then { v2 with scrollOffset := maxOffset } else v2, true)

/-! ## Slug generation (`markdown_session.go` lines 15-33 and 362-369)

Character classification follows the ASCII fragment of Go's `unicode`
package tables (the tables themselves are an external dependency); all
characters the slug rules treat specially are ASCII. -/

/-- Whitespace test used by `strings.TrimSpace` (ASCII fragment of
`unicode.IsSpace`). -/
def goIsSpace (c : Char) : Bool :=
  c = ' ' ∨ c = '\t' ∨ c = '\n' ∨ c = '\r' ∨ c = '\x0b' ∨ c = '\x0c'

/-- trimSpace models `strings.TrimSpace` on the character list. -/
def trimSpace (l : List Char) : List Char :=
  ((l.dropWhile goIsSpace).reverse.dropWhile goIsSpace).reverse

/-- generateSlug converts header text to a URL-safe anchor slug
(`markdown_session.go` lines 15-33), written as the `strings.Builder` loop
of the source. -/
def generateSlug (text : String) : String :=
  (trimSpace text.data).foldl
    (fun acc r =>
      if r.isAlpha ∨ r.isDigit then acc.push r.toLower
      else if r = ' ' then acc.push '-'
      else if r = '-' ∨ r = '_' then acc.push r
      else acc)
    ""

/-- Per-character slug rule as the specification words it: keep letters and
digits lower-cased, map a space to `-`, keep `-` and `_`, drop the rest. -/
def slugCharSpec (r : Char) : Option Char :=
  if r.isAlpha ∨ r.isDigit then some r.toLower
  else if r = ' ' then some '-'
  else if r = '-' ∨ r = '_' then some r
  else none

/-- generateSlugSpec is the specification's description of the base slug:
trim, then transform each rune independently. -/
def generateSlugSpec (text : String) : String :=
  String.mk ((trimSpace text.data).filterMap slugCharSpec)

/-- assignSlugsAux threads the `slugCounts` map of
`parseMarkdownWithSource` (`markdown_session.go` lines 346, 362-369)
through the heading texts in document order. -/
def assignSlugsAux (counts : String → Nat) : List String → List String
  | [] => []
  | t :: rest =>
      let baseSlug := generateSlug t
      let count := counts baseSlug
      let slug := if count = 0 then baseSlug else baseSlug ++ "-" ++ toString count
      slug :: assignSlugsAux (fun s => if s = baseSlug then count + 1 else counts s) rest

/-- assignSlugs maps the heading texts of one document to their slugs, as
one load of `parseMarkdownWithSource` does. -/
def assignSlugs (texts : List String) : List String :=
  assignSlugsAux (fun _ => 0) texts

/-- assignSlugsSpec is the specification's description: the heading at
position `i` receives its base slug, suffixed by `-k` when `k > 0` prior
headings share that base slug. -/
def assignSlugsSpec (texts : List String) : List String :=
  (List.range texts.length).map (fun i =>
    let b := generateSlug (texts.getD i "")
    let k := (texts.take i).countP (fun u => generateSlug u = b)
    if k = 0 then b else b ++ "-" ++ toString k)

/-! ## Marker vocabulary (`markers.go`)

`DecodeHeaderLevel` slices its argument at byte offsets, so this part of
the model works on UTF-8 byte lists (`List Nat`).  A Go slice-bounds panic
is modelled by returning `none`. -/

/-- UTF-8 bytes of ZWS U+200B. -/
def zwsBytes : List Nat := [0xE2, 0x80, 0x8B]

/-- UTF-8 bytes of ZWNJ U+200C. -/
def zwnjBytes : List Nat := [0xE2, 0x80, 0x8C]

/-- UTF-8 bytes of ZWJ U+200D (`headerMarkerPrefix`). -/
def zwjBytes : List Nat := [0xE2, 0x80, 0x8D]

/-- UTF-8 bytes of WJ U+2060 (`headerLevelChar`). -/
def wjBytes : List Nat := [0xE2, 0x81, 0xA0]

/-- countOcc models `strings.Count` for a non-empty pattern:
non-overlapping occurrences of `pat` (the source only counts the 3-byte WJ
sequence). -/
def countOcc (pat : List Nat) : List Nat → Nat
  | [] => 0
  | a :: l =>
      if pat.isPrefixOf (a :: l) then 1 + countOcc pat (l.drop (pat.length - 1))
      else countOcc pat l
  termination_by l => l.length
  decreasing_by
  · simp only [List.length_drop, List.length_cons]
    omega
  · simp only [List.length_cons]
    omega

/-- HeaderStartMarker generates a start marker with the level clamped into
1..6 (`markers.go` lines 30-38). -/
def headerStartMarkerBytes (level : Int) : List Nat :=
  let level1 := if level < 1 then 1 else level
  let level2 := if 6 < level1 then 6 else level1
  zwjBytes ++ (List.replicate level2.toNat wjBytes).flatten ++ zwjBytes

/-- headerClampSpec is the clamp into 1..6 the specification requires of
the encoder. -/
def headerClampSpec (level : Int) : Int :=
  if level < 1 then 1 else if 6 < level then 6 else level

/-- DecodeHeaderLevel extracts the heading level from a header start marker
(`markers.go` lines 42-58).  `some n` is a Go return of `n`; `none` is the
slice-bounds panic raised when `marker[3 : len(marker)-3]` has its low
bound above its high bound. -/
def decodeHeaderLevelBytes (marker : List Nat) : Option Int :=
  if ¬ zwjBytes.isPrefixOf marker then some 0
  else if ¬ zwjBytes.isSuffixOf marker then some 0
  else
    let lo := zwjBytes.length
    let hi := marker.length - zwjBytes.length
    if lo ≤ hi then
      let inner := (marker.drop lo).take (hi - lo)
      let level := (countOcc wjBytes inner : Int)
      if level < 1 ∨ 6 < level then some 0 else some level
    else none

/-! ## Path resolver (`ResolveMarkdownPath` and `containsDirectoryTraversal`)

Strings are processed as character lists; the Go byte operations agree with
character operations here because every pattern the resolver matches is
ASCII.  `os.Stat` is abstracted by a `fileExists` oracle. -/

/-- splitOnSlash models `strings.Split(s, "/")`. -/
def splitOnSlash : List Char → List (List Char)
  | [] => [[]]
  | c :: l =>
      let rest := splitOnSlash l
      if c = '/' then [] :: rest
      else
        match rest with
        | [] => [[c]]
        | seg :: segs => (c :: seg) :: segs

/-- isAbsChars models `filepath.IsAbs` on Unix: the path starts with the
separator. -/
def isAbsChars (l : List Char) : Bool :=
  match l with
  | '/' :: _ => true
  | _ => false

/-- cleanSegsStep processes one path element of `filepath.Clean`:
drop empty and `.` elements, let `..` cancel a preceding non-`..` element
(or vanish at the root of a rooted path). -/
def cleanSegsStep (rooted : Bool) (st : List (List Char)) (seg : List Char) : List (List Char) :=
  if seg = [] ∨ seg = ['.'] then st
  else if seg = ['.', '.'] then
    match st with
    | [] => if rooted then [] else [['.', '.']]
    | top :: rest => if top = ['.', '.'] then seg :: st else rest
  else seg :: st

/-- cleanedSegs is the element stack of `filepath.Clean` in path order. -/
def cleanedSegs (p : List Char) : List (List Char) :=
  ((splitOnSlash p).foldl (cleanSegsStep (isAbsChars p)) []).reverse

/-- intercalateSlash joins path elements with the separator. -/
def intercalateSlash : List (List Char) → List Char
  | [] => []
  | [s] => s
  | s :: rest => s ++ '/' :: intercalateSlash rest

/-- cleanChars models `filepath.Clean` on Unix paths: the shortest
lexically-equivalent path, `.` when everything cancels. -/
def cleanChars (p : List Char) : List Char :=
  let rooted := isAbsChars p
  let segs := cleanedSegs p
  if segs = [] then (if rooted then ['/'] else ['.'])
  else (if rooted then ['/'] else []) ++ intercalateSlash segs

/-- startsWithL models `strings.HasPrefix`. -/
def startsWithL (pre l : List Char) : Bool := pre.isPrefixOf l

/-- containsL models `strings.Contains`: `sub` occurs contiguously in `l`. -/
def containsL : List Char → List Char → Bool
  | [], sub => decide (sub = [])
  | c :: t, sub => sub.isPrefixOf (c :: t) || containsL t sub

/-- Sensitive first segments of absolute paths (`containsDirectoryTraversal`). -/
def sensitiveAbsSegs : List (List Char) := ["etc".data, "sys".data, "proc".data, "root".data]

/-- Sensitive segments of relative paths (`containsDirectoryTraversal`). -/
def sensitiveRelSegs : List (List Char) :=
  ["etc".data, "var".data, "usr".data, "sys".data, "proc".data, "root".data]

/-- cdtChars is `containsDirectoryTraversal` of the path resolver source,
with its three sequential early-returning checks written as a disjunction
of guarded conditions. -/
def cdtChars (path : List Char) : Bool :=
  (if isAbsChars path then
    match splitOnSlash (cleanChars path) with
    | _ :: second :: _ => sensitiveAbsSegs.contains second
    | _ => false
   else false) ||
  (if startsWithL "../".data path || path = "..".data then
    let parts := splitOnSlash (cleanChars path)
    let escapeCount := (parts.takeWhile (fun part => part = "..".data)).length
    decide (1 < escapeCount) || parts.any (fun part => sensitiveRelSegs.contains part)
   else false) ||
  (if ¬ isAbsChars path then
    sensitiveRelSegs.any (fun s => startsWithL (s ++ ['/']) path || containsL path ('/' :: (s ++ ['/'])))
   else false)

/-- containsDirectoryTraversal (path resolver source, lines 71-130). -/
def containsDirectoryTraversal (path : String) : Bool := cdtChars path.data

/-- isHTTPURL (path resolver source, lines 67-69). -/
def isHTTPURL (url : String) : Bool :=
  startsWithL "http://".data url.data || startsWithL "https://".data url.data

/-- filepathClean wraps the character-list model of `filepath.Clean`. -/
def filepathClean (p : String) : String := String.mk (cleanChars p.data)

/-- filepathIsAbs wraps the character-list model of `filepath.IsAbs`. -/
def filepathIsAbs (p : String) : Bool := isAbsChars p.data

/-- filepathDir models `filepath.Dir` on Unix: the cleaned portion up to
the final separator, `.` when there is none. -/
def filepathDir (p : String) : String :=
  let comps := splitOnSlash p.data
  if comps.length ≤ 1 then filepathClean ""
  else String.mk (cleanChars (intercalateSlash comps.dropLast ++ ['/']))

/-- filepathJoin models the two-argument `filepath.Join`. -/
def filepathJoin (a b : String) : String :=
  if a = "" ∧ b = "" then ""
  else if a = "" then filepathClean b
  else if b = "" then filepathClean a
  else filepathClean (a ++ "/" ++ b)

/-- Sentinel errors of the path resolver. -/
inductive ResolveError where
  | directoryTraversal
  | fileNotFound
deriving Repr, DecidableEq

/-- ResolveMarkdownPath resolves a markdown link URL to a file path
(path resolver source, lines 26-65).  `fileExists` abstracts `os.Stat`. -/
def resolveMarkdownPath (fileExists : String → Bool) (linkURL sourceFilePath : String)
    (searchRoots : List String) : Except ResolveError String :=
  if linkURL = "" then Except.ok ""
  else if isHTTPURL linkURL then Except.ok linkURL
  else if containsDirectoryTraversal linkURL then Except.error ResolveError.directoryTraversal
  else if filepathIsAbs linkURL then
    (if fileExists linkURL then Except.ok linkURL else Except.error ResolveError.fileNotFound)
  else
    let fromSource : Option String :=
      if sourceFilePath ≠ "" then
        let candidate := filepathClean (filepathJoin (filepathDir sourceFilePath) linkURL)
        (if fileExists candidate then some candidate else none)
      else none
    match fromSource with
    | some c => Except.ok c
    | none =>
        match searchRoots.findSome? (fun root =>
            if root = "" then none
            else
              let candidate := filepathClean (filepathJoin root linkURL)
              (if fileExists candidate then some candidate else none)) with
        | some c => Except.ok c
        | none => Except.error ResolveError.fileNotFound

/-- specTraversalBlockedOrig is the claimed blocking condition exactly as
the specification words it: an absolute path whose first segment is
etc/sys/proc/root, a relative path with a sensitive segment followed by a
slash (a non-final `splitOn "/"` segment), or a relative path beginning
with more than one parent-directory escape. -/
def specTraversalBlockedOrig (p : String) : Prop :=
  if isAbsChars p.data then
    (splitOnSlash p.data).getD 1 [] ∈ sensitiveAbsSegs
  else
    (∃ s ∈ sensitiveRelSegs, s ∈ (splitOnSlash p.data).dropLast) ∨
    1 < ((splitOnSlash p.data).takeWhile (fun part => part = "..".data)).length

/-- specTraversalBlocked is the amended blocking condition: the absolute
check and the parent-escape count read the *cleaned* path, and a path
beginning with `../` (or equal to `..`) is additionally blocked when any
segment of its cleaned form equals a sensitive name. -/
def specTraversalBlocked (p : String) : Prop :=
  if isAbsChars p.data then
    (splitOnSlash (cleanChars p.data)).getD 1 [] ∈ sensitiveAbsSegs
  else
    (∃ s ∈ sensitiveRelSegs, s ∈ (splitOnSlash p.data).dropLast) ∨
    ((startsWithL "../".data p.data || p.data = "..".data) = true ∧
      (1 < ((splitOnSlash (cleanChars p.data)).takeWhile (fun part => part = "..".data)).length ∨
       ∃ s ∈ sensitiveRelSegs, s ∈ splitOnSlash (cleanChars p.data)))

instance (p : String) : Decidable (specTraversalBlockedOrig p) := by
  unfold specTraversalBlockedOrig
  infer_instance

instance (p : String) : Decidable (specTraversalBlocked p) := by
  unfold specTraversalBlocked
  infer_instance

/-! ## Reachable session states

One step for each public mutating operation of the session API.  The
`Bool` index restricts the operation set: relation `false` excludes
`SetWidth`, relation `true` admits every operation.  Constructors quantify
over all operation arguments, so reachability covers every sequence of
public operations from any freshly constructed session. -/

/-- Step relates a session to its successor under one public operation. -/
inductive Step : Bool → Session → Session → Prop where
  | loadStep (sw : Bool) (v : Session) (content sourceFilePath : String) (push : Bool) :
      Step sw v (setMarkdownWithSource v content sourceFilePath push).1
  | widthStep (v : Session) (cols : Int) :
      Step true v (setWidth v cols).1
  | scrollUpStep (sw : Bool) (v : Session) (vh : Int) :
      Step sw v (scrollUp v vh).1
  | scrollDownStep (sw : Bool) (v : Session) (vh : Int) :
      Step sw v (scrollDown v vh).1
  | pageUpStep (sw : Bool) (v : Session) (vh : Int) :
      Step sw v (pageUp v vh).1
  | pageDownStep (sw : Bool) (v : Session) (vh : Int) :
      Step sw v (pageDown v vh).1
  | homeStep (sw : Bool) (v : Session) (vh : Int) :
      Step sw v (home v vh)
  | endStep (sw : Bool) (v : Session) (vh : Int) :
      Step sw v (endScroll v vh)
  | nextLinkStep (sw : Bool) (v : Session) (vh : Int) :
      Step sw v (moveToNextLink v vh).1
  | prevLinkStep (sw : Bool) (v : Session) (vh : Int) :
      Step sw v (moveToPreviousLink v vh).1
  | firstLinkStep (sw : Bool) (v : Session) (vh : Int) :
      Step sw v (moveToFirst v vh).1
  | lastLinkStep (sw : Bool) (v : Session) (vh : Int) :
      Step sw v (moveToLast v vh).1
  | anchorStep (sw : Bool) (v : Session) (slug : String) (vh : Int) (push : Bool) :
      Step sw v (scrollToAnchor v slug vh push).1
  | goBackStep (sw : Bool) (v : Session) :
      Step sw v (goBack v).1
  | goForwardStep (sw : Bool) (v : Session) :
      Step sw v (goForward v).1

/-- Reachable session states: a freshly constructed session, closed under
the operation steps. -/
inductive Reachable : Bool → Session → Prop where
  | new (sw : Bool) (opts : Options) : Reachable sw (newSession opts)
  | step {sw : Bool} {v w : Session} : Reachable sw v → Step sw v w → Reachable sw w

/-! ## Session invariants

`selOK` is the selection invariant; the `strong` flag additionally demands
a positive correlated span, which the specification claims and which every
operation except `SetWidth` maintains. -/

/-- selOK: the selection is clear, or in bounds and naming a link (with a
positive span when `strong`). -/
def selOK (strong : Bool) (elements : List NavElement) (idx : Int) : Prop :=
  idx = -1 ∨
  (0 ≤ idx ∧ idx < (elements.length : Int) ∧
   (elemAtI elements idx).type = NavElementType.url ∧
   (strong = true → (elemAtI elements idx).startCol < (elemAtI elements idx).endCol))

/-- pageOK: the selection invariant for a stored history snapshot. -/
def pageOK (strong : Bool) (p : PageState) : Prop :=
  selOK strong p.elements p.selectedIndex

/-- histOK: positive capacity, joint size within capacity, and every
stored snapshot satisfying the selection invariant. -/
def histOK (strong : Bool) (h : NavigationHistory PageState) : Prop :=
  1 ≤ h.maxSize ∧
  (h.backStack.length : Int) + (h.forwardStack.length : Int) ≤ h.maxSize ∧
  (∀ p ∈ h.backStack, pageOK strong p) ∧
  (∀ p ∈ h.forwardStack, pageOK strong p)

/-- SessionInv: the inductive invariant maintained by the operations. -/
def SessionInv (strong : Bool) (s : Session) : Prop :=
  selOK strong s.elements s.selectedIndex ∧ histOK strong s.history

/-! ## Concrete components for witnesses and counterexamples -/

/-- A renderer succeeding with fixed lines at every width. -/
def okRenderer (lines : List String) : Int → String → Except String RenderResult :=
  fun _ _ => Except.ok { lines := lines, cleaner := none }

/-- A renderer that always fails. -/
def failRenderer : Int → String → Except String RenderResult :=
  fun _ _ => Except.error "render failed"

/-- A renderer echoing the markdown as a single line. -/
def echoRenderer : Int → String → Except String RenderResult :=
  fun _ content => Except.ok { lines := [content], cleaner := none }

/-- A parser producing no elements. -/
def emptyParse : String → String → List NavElement := fun _ _ => []

/-- A correlator reporting nothing found. -/
def emptyCorrelate :
    List NavElement → List String → (String → String) → List (Option (Int × Int × Int)) :=
  fun _ _ _ => []

/-- A link element with a correlated span, as a load would leave it. -/
def sampleLink : NavElement :=
  { type := NavElementType.url, text := "Google", url := "https://google.com", level := 0,
    slug := "", sourceFilePath := "", startLine := 0, endLine := 0, startCol := 6, endCol := 12 }

/-- A header element with slug `target` on line 0. -/
def sampleHeader : NavElement :=
  { type := NavElementType.header, text := "target", url := "", level := 2,
    slug := "target", sourceFilePath := "", startLine := 0, endLine := 0, startCol := 0, endCol := 0 }

/-- A stored page snapshot. -/
def samplePage : PageState :=
  { markdown := "# Old Page", sourceFilePath := "old.md", selectedIndex := 0,
    scrollOffset := 1, elements := [sampleLink], renderedLines := ["line0", "line1"],
    cleaner := fun s => s, width := 80 }

/-- A stored page snapshot whose selection points at a header. -/
def samplePageHeaderSel : PageState :=
  { markdown := "# Hdr Page", sourceFilePath := "hdr.md", selectedIndex := 0,
    scrollOffset := 0, elements := [sampleHeader], renderedLines := ["h"],
    cleaner := fun s => s, width := 0 }

/-- A session whose renderer fails, with non-trivial content and history. -/
def c1Session : Session :=
  { markdown := "# Current", currentSourceFile := "cur.md", renderedLines := ["Current", "body"],
    cleaner := fun s => s, elements := [sampleLink], selectedIndex := 0, scrollOffset := 1,
    history := { backStack := [samplePage], forwardStack := [samplePageHeaderSel], maxSize := 50 },
    renderer := failRenderer, correlator := emptyCorrelate, parseElements := emptyParse,
    currentWidth := 0, alwaysScrollToAnchor := false }

/-- A session with both history stacks populated, for the goBack contract. -/
def c4Session : Session :=
  { markdown := "# Now", currentSourceFile := "now.md", renderedLines := ["Now"],
    cleaner := fun s => s, elements := [sampleLink], selectedIndex := -1, scrollOffset := 0,
    history := { backStack := [samplePageHeaderSel, samplePage], forwardStack := [], maxSize := 50 },
    renderer := okRenderer ["Now"], correlator := emptyCorrelate, parseElements := emptyParse,
    currentWidth := 0, alwaysScrollToAnchor := false }

/-- A session with no history at all, for the empty-stack goBack contract. -/
def c4EmptySession : Session :=
  { c4Session with history := { backStack := [], forwardStack := [], maxSize := 50 } }

/-- A session showing the anchor `target` inside the viewport. -/
def c9Session : Session :=
  { markdown := "[X](#target)\n\n## target", currentSourceFile := "", renderedLines := ["X", "", "target"],
    cleaner := fun s => s, elements := [sampleHeader], selectedIndex := -1, scrollOffset := 0,
    history := { backStack := [], forwardStack := [], maxSize := 50 },
    renderer := okRenderer ["X", "", "target"], correlator := emptyCorrelate,
    parseElements := emptyParse, currentWidth := 0, alwaysScrollToAnchor := false }

/-- An uncorrelated link element (zero-width span), as the parser emits it. -/
def dupLink : NavElement :=
  { type := NavElementType.url, text := "x", url := "a", level := 0, slug := "",
    sourceFilePath := "", startLine := 0, endLine := 0, startCol := 0, endCol := 0 }

/-- A parser producing two links with identical text and URL for content
`"P"` — what goldmark produces for two occurrences of `[x](a)`. -/
def dupParse : String → String → List NavElement :=
  fun content _ => if content = "P" then [dupLink, dupLink] else []

/-- A correlator finding the first link with a zero-width span at (0,0) and
the second with span 0..1 on line 1 — the marker correlator's answer for a
render whose first link marker pair encloses no text. -/
def dupCorrelate :
    List NavElement → List String → (String → String) → List (Option (Int × Int × Int)) :=
  fun elems _ _ => if elems.length = 2 then [some (0, 0, 0), some (1, 0, 1)] else []

/-- Options for the duplicate-link scenario. -/
def dupOptions : Options :=
  { renderer := okRenderer ["L0", "L1"], correlator := dupCorrelate, parseElements := dupParse,
    historyMax := 50, alwaysScrollToAnchor := false }

/-- The duplicate-link session after loading content `"P"`. -/
def dupLoaded : Session := (setMarkdownWithSource (newSession dupOptions) "P" "" false).1

/-- The duplicate-link session after selecting the second link. -/
def dupSelected : Session := (moveToNextLink dupLoaded 10).1

/-- The duplicate-link session after a width change: the selection restore
matches the first (uncorrelated) duplicate. -/
def dupAfterWidth : Session := (setWidth dupSelected 5).1

/-- A header element with slug `a` and no correlated position. -/
def anchorHeader : NavElement :=
  { type := NavElementType.header, text := "A", url := "", level := 1, slug := "a",
    sourceFilePath := "", startLine := 0, endLine := 0, startCol := 0, endCol := 0 }

/-- A parser producing the slug-`a` header for content `"H"`. -/
def anchorParse : String → String → List NavElement :=
  fun content _ => if content = "H" then [anchorHeader] else []

/-- Options for the anchor-jump scenario (always scroll to anchors). -/
def anchorOptions : Options :=
  { renderer := okRenderer ["x"], correlator := emptyCorrelate, parseElements := anchorParse,
    historyMax := 50, alwaysScrollToAnchor := true }

/-- Anchor scenario: first page with the header loaded. -/
def anchorS1 : Session := (setMarkdownWithSource (newSession anchorOptions) "H" "" false).1

/-- Anchor scenario: second page loaded with history push. -/
def anchorS2 : Session := (setMarkdownWithSource anchorS1 "Q" "" true).1

/-- Anchor scenario: back on the first page with a non-empty forward stack. -/
def anchorS3 : Session := (goBack anchorS2).1

/-- A session on its first page with a non-empty forward stack, built by
load, load-with-push, and goBack. -/
def histOptions : Options :=
  { renderer := echoRenderer, correlator := emptyCorrelate, parseElements := emptyParse,
    historyMax := 50, alwaysScrollToAnchor := false }

/-- History scenario: first page loaded. -/
def histS1 : Session := (setMarkdownWithSource (newSession histOptions) "p1" "" false).1

/-- History scenario: second page loaded with history push. -/
def histS2 : Session := (setMarkdownWithSource histS1 "p2" "" true).1

/-- History scenario: back on page one, forward stack non-empty. -/
def histS3 : Session := (goBack histS2).1

/-- A renderer shrinking from ten lines (width 0) to three lines. -/
def c10Renderer : Int → String → Except String RenderResult :=
  fun w _ =>
    if w = 0 then
      Except.ok { lines := ["0", "1", "2", "3", "4", "5", "6", "7", "8", "9"], cleaner := none }
    else Except.ok { lines := ["0", "1", "2"], cleaner := none }

/-- A parser producing one link for content `"D"`. -/
def c10Parse : String → String → List NavElement :=
  fun content _ => if content = "D" then [dupLink] else []

/-- A correlator that finds the link at line 9 in the ten-line render and
fails to find it in the three-line render. -/
def c10Correlate :
    List NavElement → List String → (String → String) → List (Option (Int × Int × Int)) :=
  fun _ lines _ => if lines.length = 10 then [some (9, 0, 3)] else [none]

/-- Options for the stale-scroll scenario. -/
def c10Options : Options :=
  { renderer := c10Renderer, correlator := c10Correlate, parseElements := c10Parse,
    historyMax := 50, alwaysScrollToAnchor := false }

/-- Stale-scroll scenario: loaded at width 0, link correlated at line 9. -/
def c10Loaded : Session := (setMarkdownWithSource (newSession c10Options) "D" "" false).1

/-- Stale-scroll scenario: the link selected. -/
def c10SelectedS : Session := (moveToNextLink c10Loaded 20).1

/-- Stale-scroll scenario: result of the width change to 5 columns. -/
def c10After : Session × Bool := setWidth c10SelectedS 5

/-! ## Helper lemmas on lists and the history structure -/

theorem findIdxP_some {α : Type} [Inhabited α] {p : α → Bool} {l : List α} :
    ∀ {i : Nat}, l.findIdx? p = some i → i < l.length ∧ p (l.getD i default) = true := by
  induction l with
  | nil => intro i h; simp [List.findIdx?] at h
  | cons a t ih =>
      intro i h
      rw [List.findIdx?] at h
      by_cases hp : p a
      · simp [hp] at h
        subst h
        simp [hp]
      · simp [hp] at h
        obtain ⟨j, hj, hji⟩ := h
        obtain ⟨h1, h2⟩ := ih hj
        subst hji
        exact ⟨by simp; omega, by simpa using h2⟩

theorem getD_drop {α : Type} [Inhabited α] (l : List α) (n j : Nat) (hj : j < (l.drop n).length) :
    (l.drop n).getD j default = l.getD (n + j) default := by
  have hlen : n + j < l.length := by
    simp at hj; omega
  rw [List.getD_eq_getElem?_getD, List.getD_eq_getElem?_getD]
  rw [List.getElem?_drop]

theorem findIdxFrom_spec {p : NavElement → Bool} {l : List NavElement} {start i : Nat}
    (h : findIdxFrom p l start = some i) :
    start ≤ i ∧ i < l.length ∧ p (l.getD i default) = true := by
  unfold findIdxFrom at h
  obtain ⟨j, hj, rfl⟩ : ∃ j, (l.drop start).findIdx? p = some j ∧ i = j + start := by
    cases hfind : (l.drop start).findIdx? p with
    | none => rw [hfind] at h; simp at h
    | some j => rw [hfind] at h; simp at h; exact ⟨j, rfl, h.symm⟩
  obtain ⟨hlt, hp⟩ := findIdxP_some hj
  have hlen : j < l.length - start := by simpa using hlt
  refine ⟨by omega, by omega, ?_⟩
  rw [getD_drop l start j hlt] at hp
  have : start + j = j + start := by omega
  rwa [this] at hp

theorem getD_reverse {α : Type} [Inhabited α] (l : List α) (j : Nat) (hj : j < l.length) :
    l.reverse.getD j default = l.getD (l.length - 1 - j) default := by
  rw [List.getD_eq_getElem?_getD, List.getD_eq_getElem?_getD]
  rw [List.getElem?_eq_getElem (by simpa using hj)]
  rw [List.getElem?_eq_getElem (by omega)]
  simp [List.getElem_reverse]

theorem getD_take {α : Type} [Inhabited α] (l : List α) (n j : Nat) (hj : j < (l.take n).length) :
    (l.take n).getD j default = l.getD j default := by
  have hlen : j < l.length := by simp at hj; omega
  rw [List.getD_eq_getElem?_getD, List.getD_eq_getElem?_getD]
  rw [List.getElem?_eq_getElem (by simpa using hj), List.getElem?_eq_getElem hlen]
  simp [List.getElem_take]

theorem findIdxRevBefore_spec {p : NavElement → Bool} {l : List NavElement} {stop i : Nat}
    (hstop : stop ≤ l.length) (h : findIdxRevBefore p l stop = some i) :
    i < stop ∧ i < l.length ∧ p (l.getD i default) = true := by
  unfold findIdxRevBefore at h
  obtain ⟨j, hj, rfl⟩ : ∃ j, (l.take stop).reverse.findIdx? p = some j ∧ i = stop - 1 - j := by
    cases hfind : (l.take stop).reverse.findIdx? p with
    | none => rw [hfind] at h; simp at h
    | some j => rw [hfind] at h; simp at h; exact ⟨j, rfl, h.symm⟩
  obtain ⟨hlt, hp⟩ := findIdxP_some hj
  have hlen : (l.take stop).length = stop := by simp; omega
  have hj2 : j < stop := by rw [List.length_reverse, hlen] at hlt; exact hlt
  have h1 : stop - 1 - j < stop := by omega
  refine ⟨h1, by omega, ?_⟩
  rw [getD_reverse _ _ (by rw [hlen]; exact hj2)] at hp
  rw [hlen] at hp
  rwa [getD_take l stop (stop - 1 - j) (by rw [hlen]; omega)] at hp

theorem trim_eq_self {h : NavigationHistory PageState} {sl : List PageState}
    (hle : (sl.length : Int) ≤ h.maxSize) : h.trim sl = sl := by
  unfold NavigationHistory.trim
  split_ifs with h1
  · rfl
  · rfl

theorem trim_length_le {h : NavigationHistory PageState} {sl : List PageState}
    (hmax : 1 ≤ h.maxSize) : ((h.trim sl).length : Int) ≤ h.maxSize := by
  unfold NavigationHistory.trim
  split_ifs with h1 h2
  · omega
  · omega
  · simp only [List.length_drop]
    omega

theorem trim_subset {h : NavigationHistory PageState} {sl : List PageState} {p : PageState}
    (hp : p ∈ h.trim sl) : p ∈ sl := by
  unfold NavigationHistory.trim at hp
  split_ifs at hp
  · exact hp
  · exact hp
  · exact List.drop_subset _ _ hp

/-! ## Shape lemmas: which fields each operation can touch -/

theorem clearSel_sel (v : Session) (vh : Int) :
    (clearSelectionIfOffScreen v vh).selectedIndex = v.selectedIndex ∨
    (clearSelectionIfOffScreen v vh).selectedIndex = -1 := by
  simp only [clearSelectionIfOffScreen]
  split_ifs <;> simp

theorem clearSel_eq (v : Session) (vh : Int) :
    clearSelectionIfOffScreen v vh =
      { v with selectedIndex := (clearSelectionIfOffScreen v vh).selectedIndex } := by
  simp only [clearSelectionIfOffScreen]
  split_ifs <;> rfl

theorem ensureVisible_eq (v : Session) (vh : Int) :
    ensureVisible v vh = { v with scrollOffset := (ensureVisible v vh).scrollOffset } := by
  simp only [ensureVisible]
  split_ifs <;> rfl

theorem sessionInv_clearSel {strong : Bool} {v : Session} (vh : Int)
    (h : SessionInv strong v) : SessionInv strong (clearSelectionIfOffScreen v vh) := by
  rw [clearSel_eq v vh]
  rcases clearSel_sel v vh with h1 | h1 <;> rw [h1]
  · exact h
  · exact ⟨Or.inl rfl, h.2⟩

theorem sessionInv_scrollOffset {strong : Bool} {v : Session} {x : Int}
    (h : SessionInv strong v) : SessionInv strong { v with scrollOffset := x } := by
  unfold SessionInv at h ⊢
  dsimp only at h ⊢
  exact h

theorem sessionInv_ensureVisible {strong : Bool} {v : Session} (vh : Int)
    (h : SessionInv strong v) : SessionInv strong (ensureVisible v vh) := by
  rw [ensureVisible_eq v vh]
  exact h

theorem sessionInv_select {strong : Bool} {v : Session} {i : Nat}
    (hlen : i < v.elements.length)
    (hvalid : isValidLink (v.elements.getD i default) = true)
    (h : SessionInv strong v) : SessionInv strong { v with selectedIndex := (i : Int) } := by
  simp only [isValidLink, decide_eq_true_eq] at hvalid
  unfold SessionInv selOK at h ⊢
  dsimp only at h ⊢
  refine ⟨Or.inr ⟨by omega, by exact_mod_cast hlen, ?_, ?_⟩, h.2⟩
  · have h1 := hvalid.1
    simpa [elemAtI, Int.toNat_natCast] using h1
  · intro _
    have h2 := hvalid.2
    simpa [elemAtI, Int.toNat_natCast] using h2

theorem sessionInv_scrollUp {strong : Bool} {v : Session} (vh : Int)
    (h : SessionInv strong v) : SessionInv strong (scrollUp v vh).1 := by
  simp only [scrollUp]
  split_ifs <;>
    first
      | exact sessionInv_clearSel vh (sessionInv_scrollOffset h)
      | exact h

theorem sessionInv_scrollDown {strong : Bool} {v : Session} (vh : Int)
    (h : SessionInv strong v) : SessionInv strong (scrollDown v vh).1 := by
  simp only [scrollDown]
  split_ifs <;>
    first
      | exact sessionInv_clearSel vh (sessionInv_scrollOffset h)
      | exact h

theorem sessionInv_pageLoop {strong : Bool}
    {step : Session → Session × Bool}
    (hstep : ∀ w, SessionInv strong w → SessionInv strong (step w).1) :
    ∀ (n : Nat) (v : Session) (moved : Bool),
      SessionInv strong v → SessionInv strong (pageLoop step n v moved).1 := by
  intro n
  induction n with
  | zero => intro v moved h; exact h
  | succ m ih =>
      intro v moved h
      unfold pageLoop
      cases hs : step v with
      | mk w b =>
          cases b
          · have := hstep v h
            rw [hs] at this
            exact this
          · have := hstep v h
            rw [hs] at this
            exact ih w true this

theorem sessionInv_pageUp {strong : Bool} {v : Session} (vh : Int)
    (h : SessionInv strong v) : SessionInv strong (pageUp v vh).1 :=
  sessionInv_pageLoop (fun _ hw => sessionInv_scrollUp vh hw) vh.toNat v false h

theorem sessionInv_pageDown {strong : Bool} {v : Session} (vh : Int)
    (h : SessionInv strong v) : SessionInv strong (pageDown v vh).1 :=
  sessionInv_pageLoop (fun _ hw => sessionInv_scrollDown vh hw) vh.toNat v false h

theorem sessionInv_home {strong : Bool} {v : Session} (vh : Int)
    (h : SessionInv strong v) : SessionInv strong (home v vh) :=
  sessionInv_clearSel vh (sessionInv_scrollOffset h)

theorem sessionInv_end {strong : Bool} {v : Session} (vh : Int)
    (h : SessionInv strong v) : SessionInv strong (endScroll v vh) := by
  simp only [endScroll]
  exact sessionInv_clearSel vh (sessionInv_scrollOffset h)

theorem sessionInv_moveToNextLink {strong : Bool} {v : Session} (vh : Int)
    (h : SessionInv strong v) : SessionInv strong (moveToNextLink v vh).1 := by
  simp only [moveToNextLink]
  split_ifs with h1 h2
  · exact h
  · cases hf : findIdxFrom isValidLink v.elements (v.selectedIndex.toNat + 1) with
    | none => exact h
    | some i =>
        obtain ⟨_, hlen, hval⟩ := findIdxFrom_spec hf
        exact sessionInv_ensureVisible vh (sessionInv_select hlen hval h)
  · cases hf : v.elements.findIdx?
        (fun e => isValidLink e ∧ v.scrollOffset ≤ e.startLine ∧
                  e.startLine < v.scrollOffset + vh) with
    | none => exact h
    | some i =>
        obtain ⟨hlen, hval⟩ := findIdxP_some hf
        simp only [decide_eq_true_eq] at hval
        exact sessionInv_ensureVisible vh (sessionInv_select hlen hval.1 h)

theorem sessionInv_moveToPreviousLink {strong : Bool} {v : Session} (vh : Int)
    (h : SessionInv strong v) : SessionInv strong (moveToPreviousLink v vh).1 := by
  simp only [moveToPreviousLink]
  split_ifs with h1 h2
  · exact h
  · have hstop : v.selectedIndex.toNat ≤ v.elements.length := by
      rcases h.1 with hs | hs
      · omega
      · omega
    cases hf : findIdxRevBefore isValidLink v.elements v.selectedIndex.toNat with
    | none => exact h
    | some i =>
        obtain ⟨_, hlen, hval⟩ := findIdxRevBefore_spec hstop hf
        exact sessionInv_ensureVisible vh (sessionInv_select hlen hval h)
  · cases hf : findIdxRevBefore
        (fun e => isValidLink e ∧ v.scrollOffset ≤ e.startLine ∧
                  e.startLine ≤ v.scrollOffset + vh - 1)
        v.elements v.elements.length with
    | none => exact h
    | some i =>
        obtain ⟨_, hlen, hval⟩ := findIdxRevBefore_spec (le_refl _) hf
        simp only [decide_eq_true_eq] at hval
        exact sessionInv_ensureVisible vh (sessionInv_select hlen hval.1 h)

theorem sessionInv_moveToFirst {strong : Bool} {v : Session} (vh : Int)
    (h : SessionInv strong v) : SessionInv strong (moveToFirst v vh).1 := by
  simp only [moveToFirst]
  split_ifs with h1
  · exact h
  · cases hf : v.elements.findIdx? isValidLink with
    | none => exact h
    | some i =>
        obtain ⟨hlen, hval⟩ := findIdxP_some hf
        dsimp only
        split_ifs
        · exact sessionInv_ensureVisible vh (sessionInv_select hlen hval h)
        · exact h

theorem sessionInv_moveToLast {strong : Bool} {v : Session} (vh : Int)
    (h : SessionInv strong v) : SessionInv strong (moveToLast v vh).1 := by
  simp only [moveToLast]
  split_ifs with h1
  · exact h
  · cases hf : findIdxRevBefore isValidLink v.elements v.elements.length with
    | none => exact h
    | some i =>
        obtain ⟨_, hlen, hval⟩ := findIdxRevBefore_spec (le_refl _) hf
        dsimp only
        split_ifs
        · exact sessionInv_ensureVisible vh (sessionInv_select hlen hval h)
        · exact h

theorem pageOK_saveCurrentState {strong : Bool} {v : Session}
    (h : selOK strong v.elements v.selectedIndex) : pageOK strong (saveCurrentState v) := h

theorem histOK_push {strong : Bool} {h : NavigationHistory PageState} {p : PageState}
    (hh : histOK strong h) (hp : pageOK strong p) : histOK strong (h.push p) := by
  obtain ⟨hmax, hsum, hback, hfwd⟩ := hh
  refine ⟨hmax, ?_, ?_, by simp [NavigationHistory.push]⟩
  · simp only [NavigationHistory.push]
    have := @trim_length_le h (h.backStack ++ [p]) hmax
    simpa using this
  · intro q hq
    simp only [NavigationHistory.push] at hq
    have := trim_subset hq
    rcases List.mem_append.mp this with hq1 | hq1
    · exact hback q hq1
    · simp at hq1
      subst hq1
      exact hp

theorem sessionInv_scrollToAnchor {strong : Bool} {v : Session}
    (slug : String) (vh : Int) (push : Bool)
    (h : SessionInv strong v) : SessionInv strong (scrollToAnchor v slug vh push).1 := by
  simp only [scrollToAnchor]
  cases hfind : findHeaderBySlug v slug with
  | none => exact h
  | some header =>
      dsimp only
      split_ifs <;>
        first
          | exact h
          | exact ⟨h.1, histOK_push h.2 (pageOK_saveCurrentState h.1)⟩

theorem applyCorrelations_length (allResults : List (Option (Int × Int × Int))) :
    ∀ (es : List NavElement) (rs : List (Option (Int × Int × Int))),
      (applyCorrelations allResults es rs).length = es.length := by
  intro es
  induction es with
  | nil => intro rs; rfl
  | cons e t ih =>
      intro rs
      simp only [applyCorrelations, List.length_cons, ih]

theorem applyCorrelations_type (allResults : List (Option (Int × Int × Int))) :
    ∀ (es : List NavElement) (rs : List (Option (Int × Int × Int))) (i : Nat),
      ((applyCorrelations allResults es rs).getD i default).type = (es.getD i default).type := by
  intro es
  induction es with
  | nil => intro rs i; rfl
  | cons e t ih =>
      intro rs i
      cases i with
      | zero =>
          simp only [applyCorrelations, List.getD_cons_zero]
          cases rs.headD none with
          | none => rfl
          | some r =>
              obtain ⟨li, sc, ec⟩ := r
              dsimp only
              split_ifs <;> rfl
      | succ j =>
          simp only [applyCorrelations, List.getD_cons_succ]
          exact ih rs.tail j

theorem correlatePositions_eq (v : Session) :
    correlatePositions v = { v with elements := (correlatePositions v).elements } := by
  simp only [correlatePositions]
  split_ifs <;> rfl

theorem correlatePositions_elements_length (v : Session) :
    (correlatePositions v).elements.length = v.elements.length := by
  simp only [correlatePositions]
  split_ifs
  · rfl
  · exact applyCorrelations_length _ _ _

theorem correlatePositions_elements_type (v : Session) (i : Nat) :
    ((correlatePositions v).elements.getD i default).type = (v.elements.getD i default).type := by
  simp only [correlatePositions]
  split_ifs
  · rfl
  · exact applyCorrelations_type _ _ _ i

theorem sessionInv_setMarkdownWithSource {strong : Bool} {v : Session}
    (content sourceFilePath : String) (push : Bool)
    (h : SessionInv strong v) :
    SessionInv strong (setMarkdownWithSource v content sourceFilePath push).1 := by
  simp only [setMarkdownWithSource]
  cases hr : v.renderer v.currentWidth content with
  | error e => exact h
  | ok rendered =>
      dsimp only
      refine ⟨Or.inl rfl, ?_⟩
      have hist3 : (correlatePositions (setCleaner
          { (if push ∧ v.markdown ≠ "" then
               { v with history := v.history.push (saveCurrentState v) }
             else v) with
            markdown := content, currentSourceFile := sourceFilePath,
            elements := v.parseElements content sourceFilePath,
            renderedLines := rendered.lines } rendered.cleaner)).history =
          (if push ∧ v.markdown ≠ "" then
             { v with history := v.history.push (saveCurrentState v) }
           else v).history := by
        rw [correlatePositions_eq]
        split_ifs <;> rfl
      dsimp only at hist3
      rw [hist3]
      split_ifs
      · exact histOK_push h.2 (pageOK_saveCurrentState h.1)
      · exact h.2

theorem sessionInv_restoreState {strong : Bool} {v : Session} {p : PageState}
    (hp : pageOK strong p) (hh : histOK strong v.history) :
    SessionInv strong (restoreState v p) := by
  simp only [restoreState]
  split_ifs with h1 h2
  · exact ⟨Or.inl rfl, hh⟩
  · exact ⟨Or.inl rfl, hh⟩
  · rcases hp with hs | hs
    · exact absurd (Or.inl (by omega : p.selectedIndex < 0)) h1
    · refine ⟨Or.inr ⟨hs.1, ?_, hs.2.2.1, hs.2.2.2⟩, hh⟩
      show p.selectedIndex < (p.elements.length : Int)
      by_contra hge
      exact h1 (Or.inr (by omega))

theorem trim_length_le_self (h : NavigationHistory PageState) (sl : List PageState) :
    (h.trim sl).length ≤ sl.length := by
  unfold NavigationHistory.trim
  split_ifs
  · exact le_refl _
  · exact le_refl _
  · simp

theorem histOK_back_pushToForward {strong : Bool} {h : NavigationHistory PageState}
    {q : PageState} (hh : histOK strong h) (hq : pageOK strong q)
    (hne : h.backStack ≠ []) :
    histOK strong ({ h with backStack := h.backStack.dropLast }.pushToForward q) := by
  obtain ⟨hmax, hsum, hback, hfwd⟩ := hh
  refine ⟨hmax, ?_, ?_, ?_⟩
  · simp only [NavigationHistory.pushToForward]
    have h1 := trim_length_le_self
      { h with backStack := h.backStack.dropLast } (h.forwardStack ++ [q])
    have h2 : h.backStack.dropLast.length = h.backStack.length - 1 := List.length_dropLast _
    have h3 : 0 < h.backStack.length := List.length_pos.mpr hne
    simp only [List.length_append, List.length_cons, List.length_nil] at h1
    omega
  · intro r hr
    simp only [NavigationHistory.pushToForward] at hr
    exact hback r (List.mem_of_mem_dropLast hr)
  · intro r hr
    simp only [NavigationHistory.pushToForward] at hr
    have := trim_subset hr
    rcases List.mem_append.mp this with hr1 | hr1
    · exact hfwd r hr1
    · simp at hr1
      subst hr1
      exact hq

theorem histOK_forward_pushToBack {strong : Bool} {h : NavigationHistory PageState}
    {q : PageState} (hh : histOK strong h) (hq : pageOK strong q)
    (hne : h.forwardStack ≠ []) :
    histOK strong ({ h with forwardStack := h.forwardStack.dropLast }.pushToBack q) := by
  obtain ⟨hmax, hsum, hback, hfwd⟩ := hh
  refine ⟨hmax, ?_, ?_, ?_⟩
  · simp only [NavigationHistory.pushToBack]
    have h1 := trim_length_le_self
      { h with forwardStack := h.forwardStack.dropLast } (h.backStack ++ [q])
    have h2 : h.forwardStack.dropLast.length = h.forwardStack.length - 1 := List.length_dropLast _
    have h3 : 0 < h.forwardStack.length := List.length_pos.mpr hne
    simp only [List.length_append, List.length_cons, List.length_nil] at h1
    omega
  · intro r hr
    simp only [NavigationHistory.pushToBack] at hr
    have := trim_subset hr
    rcases List.mem_append.mp this with hr1 | hr1
    · exact hback r hr1
    · simp at hr1
      subst hr1
      exact hq
  · intro r hr
    simp only [NavigationHistory.pushToBack] at hr
    exact hfwd r (List.mem_of_mem_dropLast hr)

theorem goBack_empty {v : Session} (hb : v.history.backStack = []) :
    goBack v = (v, false) := by
  simp [goBack, NavigationHistory.canGoBack, hb]

theorem goBack_nonempty {v : Session} (hne : v.history.backStack ≠ []) :
    goBack v =
      (restoreState
        { v with
          history := NavigationHistory.pushToForward
            ({ v.history with backStack := v.history.backStack.dropLast })
            (saveCurrentState v) }
        (v.history.backStack.getLast hne), true) := by
  have hpos : 0 < v.history.backStack.length := List.length_pos.mpr hne
  simp only [goBack, NavigationHistory.canGoBack, NavigationHistory.back,
    decide_eq_true hpos, not_true, if_false, List.getLast?_eq_getLast _ hne]

theorem goForward_empty {v : Session} (hf : v.history.forwardStack = []) :
    goForward v = (v, false) := by
  simp [goForward, NavigationHistory.canGoForward, hf]

theorem goForward_nonempty {v : Session} (hne : v.history.forwardStack ≠ []) :
    goForward v =
      (restoreState
        { v with
          history := NavigationHistory.pushToBack
            ({ v.history with forwardStack := v.history.forwardStack.dropLast })
            (saveCurrentState v) }
        (v.history.forwardStack.getLast hne), true) := by
  have hpos : 0 < v.history.forwardStack.length := List.length_pos.mpr hne
  simp only [goForward, NavigationHistory.canGoForward, NavigationHistory.forward,
    decide_eq_true hpos, not_true, if_false, List.getLast?_eq_getLast _ hne]

theorem sessionInv_goBack {strong : Bool} {v : Session}
    (h : SessionInv strong v) : SessionInv strong (goBack v).1 := by
  by_cases hb : v.history.backStack = []
  · rw [goBack_empty hb]
    exact h
  · rw [goBack_nonempty hb]
    have hp : pageOK strong (v.history.backStack.getLast hb) :=
      h.2.2.2.1 _ (List.getLast_mem hb)
    exact sessionInv_restoreState hp
      (histOK_back_pushToForward h.2 (pageOK_saveCurrentState h.1) hb)

theorem sessionInv_goForward {strong : Bool} {v : Session}
    (h : SessionInv strong v) : SessionInv strong (goForward v).1 := by
  by_cases hf : v.history.forwardStack = []
  · rw [goForward_empty hf]
    exact h
  · rw [goForward_nonempty hf]
    have hp : pageOK strong (v.history.forwardStack.getLast hf) :=
      h.2.2.2.2 _ (List.getLast_mem hf)
    exact sessionInv_restoreState hp
      (histOK_forward_pushToBack h.2 (pageOK_saveCurrentState h.1) hf)

theorem elementsMatch_type {e1 e2 : NavElement} (h : elementsMatch e1 e2 = true) :
    e1.type = e2.type := by
  by_contra hne
  simp [elementsMatch, hne] at h

theorem sessionInv_rss_selPart {v : Session} (selectedElem : Option NavElement)
    (w : Session) (hwh : w.history = v.history)
    (hh : histOK false v.history) :
    SessionInv false
      (match selectedElem with
       | some se =>
           if se.type = NavElementType.url then
             match w.elements.findIdx? (fun e => elementsMatch e se) with
             | some i => { w with selectedIndex := (i : Int) }
             | none =>
                 if 0 < w.renderedLines.length ∧
                     (w.renderedLines.length : Int) ≤ w.scrollOffset then
                   { w with selectedIndex := -1,
                            scrollOffset := (w.renderedLines.length : Int) - 1 }
                 else { w with selectedIndex := -1 }
           else
             if 0 < w.renderedLines.length ∧
                 (w.renderedLines.length : Int) ≤ w.scrollOffset then
               { w with selectedIndex := -1,
                        scrollOffset := (w.renderedLines.length : Int) - 1 }
             else { w with selectedIndex := -1 }
       | none =>
           if 0 < w.renderedLines.length ∧
               (w.renderedLines.length : Int) ≤ w.scrollOffset then
             { w with selectedIndex := -1,
                      scrollOffset := (w.renderedLines.length : Int) - 1 }
           else { w with selectedIndex := -1 }) := by
  cases selectedElem with
  | none =>
      dsimp only
      split_ifs <;>
        exact ⟨Or.inl rfl, by show histOK false w.history; rw [hwh]; exact hh⟩
  | some se =>
      dsimp only
      cases hidx : w.elements.findIdx? (fun e => elementsMatch e se) with
      | none =>
          split_ifs <;>
            exact ⟨Or.inl rfl, by show histOK false w.history; rw [hwh]; exact hh⟩
      | some i =>
          by_cases hurl : se.type = NavElementType.url
          · rw [if_pos hurl]
            dsimp only
            obtain ⟨hlen, hmatch⟩ := findIdxP_some hidx
            have htype := elementsMatch_type hmatch
            have hsel : selOK false w.elements ((i : Nat) : Int) := by
              refine Or.inr ⟨by omega, by exact_mod_cast hlen, ?_, by simp⟩
              rw [hurl] at htype
              simpa [elemAtI, Int.toNat_natCast] using htype
            exact ⟨hsel, by show histOK false w.history; rw [hwh]; exact hh⟩
          · rw [if_neg hurl]
            split_ifs <;>
              exact ⟨Or.inl rfl, by show histOK false w.history; rw [hwh]; exact hh⟩

theorem sessionInv_restoreScrollAndSelection {v : Session}
    (anchorElem selectedElem : Option NavElement)
    (hh : histOK false v.history) :
    SessionInv false (restoreScrollAndSelection v anchorElem selectedElem) := by
  simp only [restoreScrollAndSelection]
  cases anchorElem with
  | none => exact sessionInv_rss_selPart selectedElem v rfl hh
  | some a =>
      dsimp only
      cases v.elements.findIdx? (fun e => elementsMatch e a) with
      | none => exact sessionInv_rss_selPart selectedElem v rfl hh
      | some i =>
          exact sessionInv_rss_selPart selectedElem
            { v with scrollOffset := (elemAtI v.elements (i : Int)).startLine } rfl hh

theorem sessionInv_setWidth {v : Session} (cols : Int)
    (h : SessionInv false v) : SessionInv false (setWidth v cols).1 := by
  simp only [setWidth]
  generalize (if cols < 0 then 0 else cols) = c
  split_ifs <;>
    first
      | exact h
      | exact ⟨h.1, h.2⟩
      | (cases hr : v.renderer c v.markdown with
         | error e => exact ⟨h.1, h.2⟩
         | ok rendered =>
             dsimp only
             apply sessionInv_restoreScrollAndSelection
             rw [correlatePositions_eq]
             exact h.2)

theorem sessionInv_newSession (strong : Bool) (opts : Options) :
    SessionInv strong (newSession opts) := by
  refine ⟨Or.inl rfl, ?_, ?_, ?_, ?_⟩
  · show (1 : Int) ≤ if opts.historyMax ≤ 0 then 50 else opts.historyMax
    split_ifs <;> omega
  · show (0 : Int) + 0 ≤ if opts.historyMax ≤ 0 then 50 else opts.historyMax
    split_ifs <;> omega
  · intro p hp
    simp [newSession, NavigationHistory.new] at hp
  · intro p hp
    simp [newSession, NavigationHistory.new] at hp

theorem sessionInv_step_weak {sw : Bool} {v w : Session}
    (hst : Step sw v w) (h : SessionInv false v) : SessionInv false w := by
  cases hst with
  | loadStep _ _ content src push => exact sessionInv_setMarkdownWithSource content src push h
  | widthStep _ cols => exact sessionInv_setWidth cols h
  | scrollUpStep _ _ vh => exact sessionInv_scrollUp vh h
  | scrollDownStep _ _ vh => exact sessionInv_scrollDown vh h
  | pageUpStep _ _ vh => exact sessionInv_pageUp vh h
  | pageDownStep _ _ vh => exact sessionInv_pageDown vh h
  | homeStep _ _ vh => exact sessionInv_home vh h
  | endStep _ _ vh => exact sessionInv_end vh h
  | nextLinkStep _ _ vh => exact sessionInv_moveToNextLink vh h
  | prevLinkStep _ _ vh => exact sessionInv_moveToPreviousLink vh h
  | firstLinkStep _ _ vh => exact sessionInv_moveToFirst vh h
  | lastLinkStep _ _ vh => exact sessionInv_moveToLast vh h
  | anchorStep _ _ slug vh push => exact sessionInv_scrollToAnchor slug vh push h
  | goBackStep _ _ => exact sessionInv_goBack h
  | goForwardStep _ _ => exact sessionInv_goForward h

theorem sessionInv_step_strong {v w : Session}
    (hst : Step false v w) (h : SessionInv true v) : SessionInv true w := by
  cases hst with
  | loadStep _ _ content src push => exact sessionInv_setMarkdownWithSource content src push h
  | scrollUpStep _ _ vh => exact sessionInv_scrollUp vh h
  | scrollDownStep _ _ vh => exact sessionInv_scrollDown vh h
  | pageUpStep _ _ vh => exact sessionInv_pageUp vh h
  | pageDownStep _ _ vh => exact sessionInv_pageDown vh h
  | homeStep _ _ vh => exact sessionInv_home vh h
  | endStep _ _ vh => exact sessionInv_end vh h
  | nextLinkStep _ _ vh => exact sessionInv_moveToNextLink vh h
  | prevLinkStep _ _ vh => exact sessionInv_moveToPreviousLink vh h
  | firstLinkStep _ _ vh => exact sessionInv_moveToFirst vh h
  | lastLinkStep _ _ vh => exact sessionInv_moveToLast vh h
  | anchorStep _ _ slug vh push => exact sessionInv_scrollToAnchor slug vh push h
  | goBackStep _ _ => exact sessionInv_goBack h
  | goForwardStep _ _ => exact sessionInv_goForward h

theorem reachable_inv_weak {sw : Bool} {s : Session} (h : Reachable sw s) :
    SessionInv false s := by
  induction h with
  | new opts => exact sessionInv_newSession false opts
  | step _ hs ih => exact sessionInv_step_weak hs ih

theorem reachable_inv_strong {s : Session} (h : Reachable false s) :
    SessionInv true s := by
  induction h with
  | new opts => exact sessionInv_newSession true opts
  | step _ hs ih => exact sessionInv_step_strong hs ih

/-! ## Field equations for restoreState and goBack/goForward -/

theorem restoreState_history (v : Session) (p : PageState) :
    (restoreState v p).history = v.history := by
  simp only [restoreState]
  split_ifs <;> rfl

theorem restoreState_fields (v : Session) (p : PageState) :
    (restoreState v p).markdown = p.markdown ∧
    (restoreState v p).currentSourceFile = p.sourceFilePath ∧
    (restoreState v p).renderedLines = p.renderedLines ∧
    (restoreState v p).elements = p.elements ∧
    (restoreState v p).scrollOffset = p.scrollOffset ∧
    (restoreState v p).currentWidth = p.width ∧
    (restoreState v p).selectedIndex =
      (if p.selectedIndex < 0 ∨ (p.elements.length : Int) ≤ p.selectedIndex ∨
          (elemAtI p.elements p.selectedIndex).type = NavElementType.header
       then -1 else p.selectedIndex) := by
  simp only [restoreState]
  split_ifs <;> refine ⟨rfl, rfl, rfl, rfl, rfl, rfl, ?_⟩ <;> first | rfl | tauto

/-! ## Claim theorems -/

/-- C1: when the renderer fails on the new content,
`SetMarkdownWithSource` returns that error and every observable session
field — markdown, source path, rendered lines, elements, selection, scroll
offset, and both history stacks — equals its pre-call value (atomic
replacement). -/
theorem c1_load_error_atomic (v : Session) (content sourceFilePath : String)
    (pushToHistory : Bool) (e : String)
    (hr : v.renderer v.currentWidth content = Except.error e) :
    (setMarkdownWithSource v content sourceFilePath pushToHistory).2 = some e ∧
    (setMarkdownWithSource v content sourceFilePath pushToHistory).1.markdown = v.markdown ∧
    (setMarkdownWithSource v content sourceFilePath pushToHistory).1.currentSourceFile =
      v.currentSourceFile ∧
    (setMarkdownWithSource v content sourceFilePath pushToHistory).1.renderedLines =
      v.renderedLines ∧
    (setMarkdownWithSource v content sourceFilePath pushToHistory).1.elements = v.elements ∧
    (setMarkdownWithSource v content sourceFilePath pushToHistory).1.selectedIndex =
      v.selectedIndex ∧
    (setMarkdownWithSource v content sourceFilePath pushToHistory).1.scrollOffset =
      v.scrollOffset ∧
    (setMarkdownWithSource v content sourceFilePath pushToHistory).1.history.backStack =
      v.history.backStack ∧
    (setMarkdownWithSource v content sourceFilePath pushToHistory).1.history.forwardStack =
      v.history.forwardStack := by
  have heq : setMarkdownWithSource v content sourceFilePath pushToHistory = (v, some e) := by
    simp [setMarkdownWithSource, hr]
  rw [heq]
  exact ⟨rfl, rfl, rfl, rfl, rfl, rfl, rfl, rfl, rfl⟩

/-- C1 witness: a concrete session whose renderer fails; the load reports
the error and returns the state untouched. -/
theorem c1_load_error_atomic_witness :
    c1Session.renderer c1Session.currentWidth "# New" = Except.error "render failed" ∧
    (setMarkdownWithSource c1Session "# New" "new.md" true).2 = some "render failed" ∧
    (setMarkdownWithSource c1Session "# New" "new.md" true).1.markdown = "# Current" ∧
    (setMarkdownWithSource c1Session "# New" "new.md" true).1.history.backStack =
      c1Session.history.backStack := by
  have h := c1_load_error_atomic c1Session "# New" "new.md" true "render failed" rfl
  exact ⟨rfl, h.1, h.2.1, h.2.2.2.2.2.2.2.1⟩

/-- C4: `GoBack` with an empty back stack returns false and mutates
nothing; with a non-empty back stack it pops the top snapshot, pushes a
snapshot of the pre-call current state onto the forward stack (subject to
the stacks' size bound), restores the popped snapshot (with the restore's
selection sanitisation), and returns true. -/
theorem c4_goBack_contract (v : Session) :
    (v.history.backStack = [] → goBack v = (v, false)) ∧
    (∀ hne : v.history.backStack ≠ [],
      (goBack v).2 = true ∧
      (goBack v).1.markdown = (v.history.backStack.getLast hne).markdown ∧
      (goBack v).1.currentSourceFile = (v.history.backStack.getLast hne).sourceFilePath ∧
      (goBack v).1.renderedLines = (v.history.backStack.getLast hne).renderedLines ∧
      (goBack v).1.elements = (v.history.backStack.getLast hne).elements ∧
      (goBack v).1.scrollOffset = (v.history.backStack.getLast hne).scrollOffset ∧
      (goBack v).1.currentWidth = (v.history.backStack.getLast hne).width ∧
      (goBack v).1.selectedIndex =
        (if (v.history.backStack.getLast hne).selectedIndex < 0 ∨
            ((v.history.backStack.getLast hne).elements.length : Int) ≤
              (v.history.backStack.getLast hne).selectedIndex ∨
            (elemAtI (v.history.backStack.getLast hne).elements
              (v.history.backStack.getLast hne).selectedIndex).type = NavElementType.header
         then -1 else (v.history.backStack.getLast hne).selectedIndex) ∧
      (goBack v).1.history.backStack = v.history.backStack.dropLast ∧
      (goBack v).1.history.forwardStack =
        v.history.trim (v.history.forwardStack ++ [saveCurrentState v])) := by
  constructor
  · intro hb
    exact goBack_empty hb
  · intro hne
    rw [goBack_nonempty hne]
    dsimp only
    have hf := restoreState_fields
      { v with
        history := NavigationHistory.pushToForward
          ({ v.history with backStack := v.history.backStack.dropLast })
          (saveCurrentState v) }
      (v.history.backStack.getLast hne)
    have hh := restoreState_history
      { v with
        history := NavigationHistory.pushToForward
          ({ v.history with backStack := v.history.backStack.dropLast })
          (saveCurrentState v) }
      (v.history.backStack.getLast hne)
    refine ⟨rfl, hf.1, hf.2.1, hf.2.2.1, hf.2.2.2.1, hf.2.2.2.2.1, hf.2.2.2.2.2.1,
      hf.2.2.2.2.2.2, ?_, ?_⟩
    · rw [hh]
      rfl
    · rw [hh]
      rfl

/-- C4 witness: a concrete session with a two-deep back stack; goBack
restores the most recent snapshot and preserves its link selection. -/
theorem c4_goBack_contract_witness :
    (goBack c4Session).2 = true ∧
    (goBack c4Session).1.markdown = "# Old Page" ∧
    (goBack c4Session).1.selectedIndex = 0 ∧
    (goBack c4Session).1.history.backStack = [samplePageHeaderSel] ∧
    (goBack c4Session).1.history.forwardStack.length = 1 ∧
    goBack c4EmptySession = (c4EmptySession, false) := by
  have h := (c4_goBack_contract c4Session).2 (List.cons_ne_nil _ _)
  have hempty := (c4_goBack_contract c4EmptySession).1 rfl
  refine ⟨h.1, ?_, ?_, ?_, ?_, hempty⟩
  · rw [h.2.1]
    rfl
  · rw [h.2.2.2.2.2.2.2.1]
    decide
  · rw [h.2.2.2.2.2.2.2.2.1]
    rfl
  · rw [h.2.2.2.2.2.2.2.2.2]
    rfl

/-- C9: when the anchor target exists, `alwaysScrollToAnchor` is off and
the heading is already inside the viewport, `ScrollToAnchor` returns true
and leaves the whole session unchanged — even with pushHistory true. -/
theorem c9_anchor_visible_noop (v : Session) (slug : String) (vh : Int) (push : Bool)
    (header : NavElement)
    (hfind : findHeaderBySlug v slug = some header)
    (halways : v.alwaysScrollToAnchor = false)
    (h1 : v.scrollOffset ≤ header.startLine)
    (h2 : header.startLine < v.scrollOffset + vh) :
    scrollToAnchor v slug vh push = (v, true) := by
  simp only [scrollToAnchor, hfind]
  rw [if_pos ⟨by simp [halways], h1, h2⟩]

/-- C9 witness: the sample session with the `target` heading on the first
visible line; an anchor jump with pushHistory true changes nothing. -/
theorem c9_anchor_visible_noop_witness :
    findHeaderBySlug c9Session "target" = some sampleHeader ∧
    c9Session.alwaysScrollToAnchor = false ∧
    scrollToAnchor c9Session "target" 5 true = (c9Session, true) := by
  refine ⟨rfl, rfl, ?_⟩
  exact c9_anchor_visible_noop c9Session "target" 5 true sampleHeader rfl rfl
    (by decide) (by decide)

/-- C2 (amended): in every session state reachable by the public
operations, a non-negative `selectedIndex` is in bounds and names a Link
element; the stronger guarantee `endCol > startCol` additionally holds in
every state reachable without `SetWidth` (the width-change selection
restore matches links by URL and text only and can land on an
uncorrelated duplicate, as the counterexample shows). -/
theorem c2_selection_invariant :
    (∀ s : Session, Reachable true s → 0 ≤ s.selectedIndex →
       s.selectedIndex < (s.elements.length : Int) ∧
       (elemAtI s.elements s.selectedIndex).type = NavElementType.url) ∧
    (∀ s : Session, Reachable false s → 0 ≤ s.selectedIndex →
       s.selectedIndex < (s.elements.length : Int) ∧
       (elemAtI s.elements s.selectedIndex).type = NavElementType.url ∧
       (elemAtI s.elements s.selectedIndex).startCol <
         (elemAtI s.elements s.selectedIndex).endCol) := by
  constructor
  · intro s hr hsel
    rcases (reachable_inv_weak hr).1 with h | h
    · exact absurd hsel (by omega)
    · exact ⟨h.2.1, h.2.2.1⟩
  · intro s hr hsel
    rcases (reachable_inv_strong hr).1 with h | h
    · exact absurd hsel (by omega)
    · exact ⟨h.2.1, h.2.2.1, h.2.2.2 rfl⟩

/-- C2 counterexample: the claim as stated is false.  After loading two
links with identical text and URL (the first with a zero-width marker
span), selecting the second, and changing the width, the selection-restore
of `SetWidth` matches the first duplicate: the state is reachable,
`selectedIndex = 0`, and the selected element's span is empty
(`endCol = startCol`), contradicting `endCol > startCol`. -/
theorem c2_selection_invariant_counterexample :
    Reachable true dupAfterWidth ∧
    0 ≤ dupAfterWidth.selectedIndex ∧
    (elemAtI dupAfterWidth.elements dupAfterWidth.selectedIndex).type = NavElementType.url ∧
    ¬ (elemAtI dupAfterWidth.elements dupAfterWidth.selectedIndex).startCol <
      (elemAtI dupAfterWidth.elements dupAfterWidth.selectedIndex).endCol := by
  refine ⟨?_, by decide, by decide, by decide⟩
  have h0 : Reachable true (newSession dupOptions) := Reachable.new true dupOptions
  have h1 : Reachable true dupLoaded :=
    Reachable.step h0 (Step.loadStep true (newSession dupOptions) "P" "" false)
  have h2 : Reachable true dupSelected :=
    Reachable.step h1 (Step.nextLinkStep true dupLoaded 10)
  exact Reachable.step h2 (Step.widthStep dupSelected 5)

/-- C2 witness: the invariant applied to the concrete reachable session in
which the second duplicate link is selected. -/
theorem c2_selection_invariant_witness :
    0 ≤ dupSelected.selectedIndex ∧
    dupSelected.selectedIndex < (dupSelected.elements.length : Int) ∧
    (elemAtI dupSelected.elements dupSelected.selectedIndex).type = NavElementType.url := by
  have h0 : Reachable true (newSession dupOptions) := Reachable.new true dupOptions
  have h1 : Reachable true dupLoaded :=
    Reachable.step h0 (Step.loadStep true (newSession dupOptions) "P" "" false)
  have h2 : Reachable true dupSelected :=
    Reachable.step h1 (Step.nextLinkStep true dupLoaded 10)
  have h := c2_selection_invariant.1 dupSelected h2 (by decide)
  exact ⟨by decide, h.1, h.2⟩

/-- C5: from any reachable session with a non-empty forward stack,
`GoForward` followed immediately by `GoBack` restores every observable
field — markdown, source path, rendered lines, elements, selection,
scroll offset, width — and both history stacks' sizes. -/
theorem c5_goForward_goBack_roundtrip (s : Session)
    (hr : Reachable true s) (hf : s.history.forwardStack ≠ []) :
    (goBack (goForward s).1).1.markdown = s.markdown ∧
    (goBack (goForward s).1).1.currentSourceFile = s.currentSourceFile ∧
    (goBack (goForward s).1).1.renderedLines = s.renderedLines ∧
    (goBack (goForward s).1).1.elements = s.elements ∧
    (goBack (goForward s).1).1.selectedIndex = s.selectedIndex ∧
    (goBack (goForward s).1).1.scrollOffset = s.scrollOffset ∧
    (goBack (goForward s).1).1.currentWidth = s.currentWidth ∧
    (goBack (goForward s).1).1.history.backStack.length = s.history.backStack.length ∧
    (goBack (goForward s).1).1.history.forwardStack.length =
      s.history.forwardStack.length := by
  obtain ⟨hselOK, hmax, hsum, hbackOK, hfwdOK⟩ := reachable_inv_weak hr
  have hflen : 0 < s.history.forwardStack.length := List.length_pos.mpr hf
  rw [goForward_nonempty hf]
  dsimp only
  have htrimB :
      (NavigationHistory.pushToBack
        ({ s.history with forwardStack := s.history.forwardStack.dropLast })
        (saveCurrentState s)).backStack =
      s.history.backStack ++ [saveCurrentState s] := by
    show NavigationHistory.trim _ _ = _
    apply trim_eq_self
    show ((s.history.backStack ++ [saveCurrentState s]).length : Int) ≤ s.history.maxSize
    simp only [List.length_append, List.length_cons, List.length_nil]
    push_cast
    omega
  have hs1hist :
      (restoreState
        { s with history := NavigationHistory.pushToBack ({ s.history with forwardStack := s.history.forwardStack.dropLast }) (saveCurrentState s) }
        (s.history.forwardStack.getLast hf)).history =
      NavigationHistory.pushToBack
        ({ s.history with forwardStack := s.history.forwardStack.dropLast })
        (saveCurrentState s) :=
    restoreState_history _ _
  have hbs1 :
      (restoreState
        { s with history := NavigationHistory.pushToBack ({ s.history with forwardStack := s.history.forwardStack.dropLast }) (saveCurrentState s) }
        (s.history.forwardStack.getLast hf)).history.backStack =
      s.history.backStack ++ [saveCurrentState s] := by
    rw [hs1hist, htrimB]
  have hne1 :
      (restoreState
        { s with history := NavigationHistory.pushToBack ({ s.history with forwardStack := s.history.forwardStack.dropLast }) (saveCurrentState s) }
        (s.history.forwardStack.getLast hf)).history.backStack ≠ [] := by
    rw [hbs1]
    simp
  rw [goBack_nonempty hne1]
  dsimp only
  have hp2 :
      (restoreState
        { s with history := NavigationHistory.pushToBack ({ s.history with forwardStack := s.history.forwardStack.dropLast }) (saveCurrentState s) }
        (s.history.forwardStack.getLast hf)).history.backStack.getLast hne1 =
      saveCurrentState s := by
    have hsome :
        (restoreState
          { s with history := NavigationHistory.pushToBack ({ s.history with forwardStack := s.history.forwardStack.dropLast }) (saveCurrentState s) }
          (s.history.forwardStack.getLast hf)).history.backStack.getLast? =
        some (saveCurrentState s) := by
      rw [hbs1]
      exact List.getLast?_concat _
    have ha := List.getLast?_eq_getLast _ hne1
    rw [hsome] at ha
    exact (Option.some.inj ha).symm
  refine ⟨?_, ?_, ?_, ?_, ?_, ?_, ?_, ?_, ?_⟩
  · rw [(restoreState_fields _ _).1, hp2]
    rfl
  · rw [(restoreState_fields _ _).2.1, hp2]
    rfl
  · rw [(restoreState_fields _ _).2.2.1, hp2]
    rfl
  · rw [(restoreState_fields _ _).2.2.2.1, hp2]
    rfl
  · rw [(restoreState_fields _ _).2.2.2.2.2.2, hp2]
    rcases hselOK with hs | hs
    · rw [if_pos (Or.inl (show (saveCurrentState s).selectedIndex < 0 by
        show s.selectedIndex < 0
        omega))]
      omega
    · have hneg : ¬ ((saveCurrentState s).selectedIndex < 0 ∨
          ((saveCurrentState s).elements.length : Int) ≤ (saveCurrentState s).selectedIndex ∨
          (elemAtI (saveCurrentState s).elements (saveCurrentState s).selectedIndex).type =
            NavElementType.header) := by
        rintro (h | h | h)
        · exact absurd h (by show ¬ s.selectedIndex < 0; omega)
        · exact absurd h (by show ¬ (s.elements.length : Int) ≤ s.selectedIndex; omega)
        · exact absurd (hs.2.2.1.symm.trans h) (by decide)
      rw [if_neg hneg]
      rfl
  · rw [(restoreState_fields _ _).2.2.2.2.1, hp2]
    rfl
  · rw [(restoreState_fields _ _).2.2.2.2.2.1, hp2]
    rfl
  · rw [restoreState_history]
    show ((restoreState
        { s with history := NavigationHistory.pushToBack ({ s.history with forwardStack := s.history.forwardStack.dropLast }) (saveCurrentState s) }
        (s.history.forwardStack.getLast hf)).history.backStack.dropLast).length =
      s.history.backStack.length
    rw [hbs1, List.dropLast_concat]
  · rw [restoreState_history]
    show (NavigationHistory.trim _
        ((restoreState
          { s with history := NavigationHistory.pushToBack ({ s.history with forwardStack := s.history.forwardStack.dropLast }) (saveCurrentState s) }
          (s.history.forwardStack.getLast hf)).history.forwardStack ++ [_])).length =
      s.history.forwardStack.length
    rw [trim_eq_self]
    · rw [hs1hist]
      show (s.history.forwardStack.dropLast ++ [_]).length = _
      simp only [List.length_append, List.length_dropLast, List.length_cons,
        List.length_nil]
      omega
    · rw [hs1hist]
      show ((s.history.forwardStack.dropLast ++ [_]).length : Int) ≤ s.history.maxSize
      simp only [List.length_append, List.length_dropLast, List.length_cons,
        List.length_nil]
      push_cast
      omega

/-- C5 witness: the concrete load/load-push/goBack scenario, where the
forward stack is non-empty and the round trip restores page one. -/
theorem c5_goForward_goBack_roundtrip_witness :
    histS3.history.forwardStack ≠ [] ∧
    (goBack (goForward histS3).1).1.markdown = histS3.markdown ∧
    (goBack (goForward histS3).1).1.selectedIndex = histS3.selectedIndex ∧
    (goBack (goForward histS3).1).1.history.forwardStack.length =
      histS3.history.forwardStack.length := by
  have h0 : Reachable true (newSession histOptions) := Reachable.new true histOptions
  have h1 : Reachable true histS1 :=
    Reachable.step h0 (Step.loadStep true (newSession histOptions) "p1" "" false)
  have h2 : Reachable true histS2 :=
    Reachable.step h1 (Step.loadStep true histS1 "p2" "" true)
  have hr : Reachable true histS3 := Reachable.step h2 (Step.goBackStep true histS2)
  have hf : histS3.history.forwardStack ≠ [] := List.cons_ne_nil _ _
  have h := c5_goForward_goBack_roundtrip histS3 hr hf
  exact ⟨hf, h.1, h.2.2.2.2.1, h.2.2.2.2.2.2.2.2⟩

/-! ## History-preservation lemmas for the navigation operations -/

theorem clearSel_history (v : Session) (vh : Int) :
    (clearSelectionIfOffScreen v vh).history = v.history := by
  rw [clearSel_eq]

theorem ensureVisible_history (v : Session) (vh : Int) :
    (ensureVisible v vh).history = v.history := by
  rw [ensureVisible_eq]

theorem scrollUp_history (v : Session) (vh : Int) :
    (scrollUp v vh).1.history = v.history := by
  simp only [scrollUp]
  split_ifs
  · rw [clearSel_history]
  · rfl

theorem scrollDown_history (v : Session) (vh : Int) :
    (scrollDown v vh).1.history = v.history := by
  simp only [scrollDown]
  split_ifs <;> first | rw [clearSel_history] | rfl

theorem pageLoop_history {step : Session → Session × Bool}
    (hstep : ∀ w, (step w).1.history = w.history) :
    ∀ (n : Nat) (v : Session) (moved : Bool),
      (pageLoop step n v moved).1.history = v.history := by
  intro n
  induction n with
  | zero => intro v moved; rfl
  | succ m ih =>
      intro v moved
      unfold pageLoop
      cases hs : step v with
      | mk w b =>
          cases b
          · have := hstep v
            rw [hs] at this
            exact this
          · have h1 := hstep v
            rw [hs] at h1
            rw [ih w true, h1]

theorem pageUp_history (v : Session) (vh : Int) :
    (pageUp v vh).1.history = v.history :=
  pageLoop_history (fun w => scrollUp_history w vh) vh.toNat v false

theorem pageDown_history (v : Session) (vh : Int) :
    (pageDown v vh).1.history = v.history :=
  pageLoop_history (fun w => scrollDown_history w vh) vh.toNat v false

theorem home_history (v : Session) (vh : Int) :
    (home v vh).history = v.history := by
  simp only [home]
  rw [clearSel_history]

theorem endScroll_history (v : Session) (vh : Int) :
    (endScroll v vh).history = v.history := by
  simp only [endScroll]
  rw [clearSel_history]

theorem moveToNextLink_history (v : Session) (vh : Int) :
    (moveToNextLink v vh).1.history = v.history := by
  simp only [moveToNextLink]
  split_ifs
  · rfl
  · cases findIdxFrom isValidLink v.elements (v.selectedIndex.toNat + 1) with
    | none => rfl
    | some i =>
        dsimp only
        exact (ensureVisible_history _ vh).trans rfl
  · cases v.elements.findIdx?
        (fun e => isValidLink e ∧ v.scrollOffset ≤ e.startLine ∧
                  e.startLine < v.scrollOffset + vh) with
    | none => rfl
    | some i =>
        dsimp only
        exact (ensureVisible_history _ vh).trans rfl

theorem moveToPreviousLink_history (v : Session) (vh : Int) :
    (moveToPreviousLink v vh).1.history = v.history := by
  simp only [moveToPreviousLink]
  split_ifs
  · rfl
  · cases findIdxRevBefore isValidLink v.elements v.selectedIndex.toNat with
    | none => rfl
    | some i =>
        dsimp only
        exact (ensureVisible_history _ vh).trans rfl
  · cases findIdxRevBefore
        (fun e => isValidLink e ∧ v.scrollOffset ≤ e.startLine ∧
                  e.startLine ≤ v.scrollOffset + vh - 1)
        v.elements v.elements.length with
    | none => rfl
    | some i =>
        dsimp only
        exact (ensureVisible_history _ vh).trans rfl

theorem moveToFirst_history (v : Session) (vh : Int) :
    (moveToFirst v vh).1.history = v.history := by
  simp only [moveToFirst]
  split_ifs
  · rfl
  · cases v.elements.findIdx? isValidLink with
    | none => rfl
    | some i =>
        dsimp only
        split_ifs
        · exact (ensureVisible_history _ vh).trans rfl
        · rfl

theorem moveToLast_history (v : Session) (vh : Int) :
    (moveToLast v vh).1.history = v.history := by
  simp only [moveToLast]
  split_ifs
  · rfl
  · cases findIdxRevBefore isValidLink v.elements v.elements.length with
    | none => rfl
    | some i =>
        dsimp only
        split_ifs
        · exact (ensureVisible_history _ vh).trans rfl
        · rfl

theorem scrollToAnchor_noPush_history (v : Session) (slug : String) (vh : Int) :
    (scrollToAnchor v slug vh false).1.history = v.history := by
  simp only [scrollToAnchor]
  cases findHeaderBySlug v slug with
  | none => rfl
  | some header =>
      dsimp only
      split_ifs <;> first | rfl | simp_all

theorem setMarkdown_noPush_history (v : Session) (content src : String) :
    (setMarkdownWithSource v content src false).1.history = v.history := by
  simp only [setMarkdownWithSource]
  cases v.renderer v.currentWidth content with
  | error e => rfl
  | ok rendered =>
      dsimp only
      rw [correlatePositions_eq]
      rfl

theorem trim_ne_nil {h : NavigationHistory PageState} {sl : List PageState}
    (hne : sl ≠ []) : h.trim sl ≠ [] := by
  unfold NavigationHistory.trim
  split_ifs with h1 h2
  · exact hne
  · exact hne
  · intro hd
    have hlen := congrArg List.length hd
    simp only [List.length_drop, List.length_nil] at hlen
    omega

theorem setMarkdownWithSource_error (v : Session) (content src : String) (push : Bool)
    (e : String) (hr : v.renderer v.currentWidth content = Except.error e) :
    setMarkdownWithSource v content src push = (v, some e) := by
  simp [setMarkdownWithSource, hr]

/-- C3 (amended): the forward history stack is emptied only by a
successful load with pushHistory and by a `ScrollToAnchor` that pushes
history (target found, and scrolling required); every other public
operation preserves it: scrolling, paging, home/end and link traversal
leave it unchanged, `ScrollToAnchor` without push leaves it unchanged,
failing or non-pushing loads leave it unchanged, `GoBack` keeps it
non-empty, and `GoForward` pops exactly its top entry. -/
theorem c3_forward_stack_preservation :
    (∀ (v : Session) (vh : Int),
        (scrollUp v vh).1.history.forwardStack = v.history.forwardStack ∧
        (scrollDown v vh).1.history.forwardStack = v.history.forwardStack ∧
        (pageUp v vh).1.history.forwardStack = v.history.forwardStack ∧
        (pageDown v vh).1.history.forwardStack = v.history.forwardStack ∧
        (home v vh).history.forwardStack = v.history.forwardStack ∧
        (endScroll v vh).history.forwardStack = v.history.forwardStack ∧
        (moveToNextLink v vh).1.history.forwardStack = v.history.forwardStack ∧
        (moveToPreviousLink v vh).1.history.forwardStack = v.history.forwardStack ∧
        (moveToFirst v vh).1.history.forwardStack = v.history.forwardStack ∧
        (moveToLast v vh).1.history.forwardStack = v.history.forwardStack) ∧
    (∀ (v : Session) (slug : String) (vh : Int),
        (scrollToAnchor v slug vh false).1.history.forwardStack = v.history.forwardStack) ∧
    (∀ (v : Session) (content src : String) (push : Bool) (e : String),
        v.renderer v.currentWidth content = Except.error e →
        (setMarkdownWithSource v content src push).1.history.forwardStack =
          v.history.forwardStack) ∧
    (∀ (v : Session) (content src : String),
        (setMarkdownWithSource v content src false).1.history.forwardStack =
          v.history.forwardStack) ∧
    (∀ v : Session, v.history.forwardStack ≠ [] →
        (goBack v).1.history.forwardStack ≠ []) ∧
    (∀ v : Session, v.history.forwardStack = [] → goForward v = (v, false)) ∧
    (∀ v : Session, v.history.forwardStack ≠ [] →
        (goForward v).1.history.forwardStack = v.history.forwardStack.dropLast) ∧
    (∀ (v : Session) (slug : String) (vh : Int) (header : NavElement),
        findHeaderBySlug v slug = some header →
        (v.alwaysScrollToAnchor = true ∨
         ¬ (v.scrollOffset ≤ header.startLine ∧ header.startLine < v.scrollOffset + vh)) →
        (scrollToAnchor v slug vh true).1.history.forwardStack = []) := by
  refine ⟨?_, ?_, ?_, ?_, ?_, ?_, ?_, ?_⟩
  · intro v vh
    exact ⟨by rw [scrollUp_history], by rw [scrollDown_history], by rw [pageUp_history],
      by rw [pageDown_history], by rw [home_history], by rw [endScroll_history],
      by rw [moveToNextLink_history], by rw [moveToPreviousLink_history],
      by rw [moveToFirst_history], by rw [moveToLast_history]⟩
  · intro v slug vh
    rw [scrollToAnchor_noPush_history]
  · intro v content src push e hr
    rw [setMarkdownWithSource_error v content src push e hr]
  · intro v content src
    rw [setMarkdown_noPush_history]
  · intro v hf
    by_cases hb : v.history.backStack = []
    · rw [goBack_empty hb]
      exact hf
    · rw [goBack_nonempty hb]
      dsimp only
      rw [restoreState_history]
      show NavigationHistory.trim _ (v.history.forwardStack ++ [saveCurrentState v]) ≠ []
      exact trim_ne_nil (by simp)
  · intro v hfe
    exact goForward_empty hfe
  · intro v hf
    rw [goForward_nonempty hf]
    dsimp only
    rw [restoreState_history]
    rfl
  · intro v slug vh header hfind hcond
    simp only [scrollToAnchor, hfind]
    have hnot : ¬ (¬ v.alwaysScrollToAnchor = true ∧ v.scrollOffset ≤ header.startLine ∧
        header.startLine < v.scrollOffset + vh) := by
      rcases hcond with h | h
      · intro hc
        exact hc.1 h
      · intro hc
        exact h ⟨hc.2.1, hc.2.2⟩
    rw [if_neg hnot]
    split_ifs <;> rfl

/-- C3 counterexample: the claim as stated is false.  From a reachable
state with a non-empty forward stack (load, load-with-push, goBack),
`ScrollToAnchor` with pushHistory true finds the heading, pushes onto the
back stack via `NavigationHistory.Push` — and that push clears the
forward stack. -/
theorem c3_forward_stack_counterexample :
    Reachable true anchorS3 ∧
    anchorS3.history.forwardStack ≠ [] ∧
    (scrollToAnchor anchorS3 "a" 10 true).2 = true ∧
    (scrollToAnchor anchorS3 "a" 10 true).1.history.forwardStack = [] := by
  refine ⟨?_, List.cons_ne_nil _ _, rfl, rfl⟩
  have h0 : Reachable true (newSession anchorOptions) := Reachable.new true anchorOptions
  have h1 : Reachable true anchorS1 :=
    Reachable.step h0 (Step.loadStep true (newSession anchorOptions) "H" "" false)
  have h2 : Reachable true anchorS2 :=
    Reachable.step h1 (Step.loadStep true anchorS1 "Q" "" true)
  exact Reachable.step h2 (Step.goBackStep true anchorS2)

/-- C3 witness: the amended preservation facts at the concrete history
scenario with a non-empty forward stack. -/
theorem c3_forward_stack_preservation_witness :
    (scrollUp histS3 5).1.history.forwardStack = histS3.history.forwardStack ∧
    histS3.history.forwardStack ≠ [] ∧
    (goBack histS3).1.history.forwardStack ≠ [] ∧
    (goForward histS3).1.history.forwardStack = histS3.history.forwardStack.dropLast := by
  have hne : histS3.history.forwardStack ≠ [] := List.cons_ne_nil _ _
  exact ⟨(c3_forward_stack_preservation.1 histS3 5).1, hne,
    c3_forward_stack_preservation.2.2.2.2.1 histS3 hne,
    c3_forward_stack_preservation.2.2.2.2.2.2.1 histS3 hne⟩

/-! ## C7: slug generation -/

theorem push_append_mk (acc : String) (x : Char) (rest : List Char) :
    acc.push x ++ String.mk rest = acc ++ String.mk (x :: rest) := by
  apply String.ext
  show acc.data ++ [x] ++ rest = acc.data ++ (x :: rest)
  simp

theorem slug_foldl_eq (l : List Char) : ∀ acc : String,
    (l.foldl (fun acc r =>
      if r.isAlpha ∨ r.isDigit then acc.push r.toLower
      else if r = ' ' then acc.push '-'
      else if r = '-' ∨ r = '_' then acc.push r
      else acc) acc) = acc ++ String.mk (l.filterMap slugCharSpec) := by
  induction l with
  | nil =>
      intro acc
      apply String.ext
      show acc.data = acc.data ++ []
      simp
  | cons c t ih =>
      intro acc
      simp only [List.foldl_cons, List.filterMap_cons]
      by_cases h1 : c.isAlpha ∨ c.isDigit
      · have hspec : slugCharSpec c = some c.toLower := by
          unfold slugCharSpec; rw [if_pos h1]
        rw [if_pos h1]
        simp only [hspec]
        rw [ih, push_append_mk]
      · rw [if_neg h1]
        by_cases h2 : c = ' '
        · have hspec : slugCharSpec c = some '-' := by
            unfold slugCharSpec; rw [if_neg h1, if_pos h2]
          rw [if_pos h2]
          simp only [hspec]
          rw [ih, push_append_mk]
        · rw [if_neg h2]
          by_cases h3 : c = '-' ∨ c = '_'
          · have hspec : slugCharSpec c = some c := by
              unfold slugCharSpec; rw [if_neg h1, if_neg h2, if_pos h3]
            rw [if_pos h3]
            simp only [hspec]
            rw [ih, push_append_mk]
          · have hspec : slugCharSpec c = none := by
              unfold slugCharSpec; rw [if_neg h1, if_neg h2, if_neg h3]
            rw [if_neg h3]
            simp only [hspec]
            rw [ih]

theorem generateSlug_eq_spec (text : String) : generateSlug text = generateSlugSpec text := by
  unfold generateSlug generateSlugSpec
  rw [slug_foldl_eq]
  apply String.ext
  show [] ++ ((trimSpace text.data).filterMap slugCharSpec) =
    (trimSpace text.data).filterMap slugCharSpec
  exact List.nil_append _

theorem assignSlugsAux_eq (rest : List String) : ∀ pre : List String,
    assignSlugsAux (fun s => pre.countP (fun u => generateSlug u = s)) rest =
    (List.range rest.length).map (fun i =>
      if ((pre ++ rest.take i).countP
            (fun u => generateSlug u = generateSlug (rest.getD i ""))) = 0
      then generateSlug (rest.getD i "")
      else generateSlug (rest.getD i "") ++ "-" ++
        toString ((pre ++ rest.take i).countP
          (fun u => generateSlug u = generateSlug (rest.getD i "")))) := by
  induction rest with
  | nil => intro pre; simp [assignSlugsAux]
  | cons t rest ih =>
      intro pre
      have hfun : (fun s => if s = generateSlug t then
            (pre.countP (fun u => generateSlug u = generateSlug t)) + 1
          else pre.countP (fun u => generateSlug u = s)) =
          (fun s => (pre ++ [t]).countP (fun u => generateSlug u = s)) := by
        funext s
        rw [List.countP_append]
        by_cases hs : s = generateSlug t
        · subst hs
          rw [if_pos rfl]
          simp [List.countP_cons]
        · rw [if_neg hs]
          have hne : ¬ (generateSlug t = s) := fun h => hs h.symm
          simp [List.countP_cons, hne]
      simp only [assignSlugsAux]
      rw [hfun, ih (pre ++ [t])]
      rw [List.length_cons, List.range_succ_eq_map, List.map_cons, List.map_map]
      congr 1
      · simp
      · apply List.map_congr_left
        intro i _
        simp only [Function.comp]
        rw [List.getD_cons_succ, List.take_succ_cons]
        rw [show pre ++ t :: rest.take i = (pre ++ [t]) ++ rest.take i by simp]

theorem assignSlugs_eq_spec (texts : List String) : assignSlugs texts = assignSlugsSpec texts := by
  unfold assignSlugs assignSlugsSpec
  have h0 : (fun _ : String => 0) =
      (fun s => ([] : List String).countP (fun u => generateSlug u = s)) := rfl
  rw [h0, assignSlugsAux_eq texts []]
  apply List.map_congr_left
  intro i _
  simp

theorem assignSlugs_replicate (t : String) (n : Nat) :
    assignSlugs (List.replicate n t) =
    (List.range n).map (fun k =>
      if k = 0 then generateSlug t
      else generateSlug t ++ "-" ++ toString k) := by
  rw [assignSlugs_eq_spec]
  unfold assignSlugsSpec
  rw [List.length_replicate]
  apply List.map_congr_left
  intro i hi
  have hi' : i < n := List.mem_range.mp hi
  have hget : (List.replicate n t).getD i "" = t := by
    rw [List.getD_eq_getElem?_getD, List.getElem?_replicate, if_pos hi']
    rfl
  have htake : (List.replicate n t).take i = List.replicate i t := by
    rw [List.take_replicate]
    congr 1
    omega
  simp only [hget, htake]
  have hc : List.countP (fun u => decide (generateSlug u = generateSlug t))
      (List.replicate i t) = i := by
    have hall : ∀ a ∈ List.replicate i t,
        (fun u => decide (generateSlug u = generateSlug t)) a = true := by
      intro a ha
      rw [List.eq_of_mem_replicate ha]
      simp
    rw [List.countP_eq_length.mpr hall, List.length_replicate]
  simp [hc]

/-- C7: the builder loop of `generateSlug` computes exactly the
specification's per-rune transformation of the trimmed heading text (keep
letters and digits lower-cased, space to `-`, keep `-` and `_`, drop the
rest, preserving existing hyphen runs and underscores); the `slugCounts`
threading of `parseMarkdownWithSource` gives the i-th heading with an
already-seen base slug `s` the slug `s-k` where `k` counts the prior
headings with base slug `s`; and `n` identical heading texts receive the
slugs `s`, `s-1`, ..., `s-(n-1)`. -/
theorem c7_slug_generation :
    (∀ text : String, generateSlug text = generateSlugSpec text) ∧
    (∀ texts : List String, assignSlugs texts = assignSlugsSpec texts) ∧
    (∀ (t : String) (n : Nat),
      assignSlugs (List.replicate n t) =
        (List.range n).map (fun k =>
          if k = 0 then generateSlug t
          else generateSlug t ++ "-" ++ toString k)) :=
  ⟨generateSlug_eq_spec, assignSlugs_eq_spec, assignSlugs_replicate⟩

/-! ## C8: header marker encode/decode -/

theorem flatten_replicate_length (c : Nat) :
    ((List.replicate c wjBytes).flatten).length = 3 * c := by
  induction c with
  | zero => rfl
  | succ n ih =>
      rw [List.replicate_succ, List.flatten_cons, List.length_append, ih]
      show 3 + 3 * n = 3 * (n + 1)
      omega

theorem countOcc_wj_flatten (c : Nat) :
    countOcc wjBytes ((List.replicate c wjBytes).flatten) = c := by
  induction c with
  | zero => simp [countOcc]
  | succ n ih =>
      rw [List.replicate_succ, List.flatten_cons]
      rw [show wjBytes ++ (List.replicate n wjBytes).flatten =
        0xE2 :: 0x81 :: 0xA0 :: (List.replicate n wjBytes).flatten from rfl]
      rw [countOcc]
      have hpre : wjBytes.isPrefixOf
          (0xE2 :: 0x81 :: 0xA0 :: (List.replicate n wjBytes).flatten) = true := by
        rw [List.isPrefixOf_iff_prefix]
        exact List.prefix_append wjBytes _
      rw [if_pos hpre]
      rw [show (0x81 :: 0xA0 :: (List.replicate n wjBytes).flatten).drop
        (wjBytes.length - 1) = (List.replicate n wjBytes).flatten from rfl]
      rw [ih]
      omega

theorem decode_encode (c : Nat) (h1 : 1 ≤ c) (h6 : c ≤ 6) :
    decodeHeaderLevelBytes (zwjBytes ++ (List.replicate c wjBytes).flatten ++ zwjBytes) =
      some (c : Int) := by
  have hlen : ((List.replicate c wjBytes).flatten).length = 3 * c := flatten_replicate_length c
  have hpre : zwjBytes.isPrefixOf
      (zwjBytes ++ (List.replicate c wjBytes).flatten ++ zwjBytes) = true := by
    rw [List.isPrefixOf_iff_prefix]
    exact (List.prefix_append zwjBytes _).trans
      (List.prefix_append (zwjBytes ++ (List.replicate c wjBytes).flatten) zwjBytes)
  have hsuf : zwjBytes.isSuffixOf
      (zwjBytes ++ (List.replicate c wjBytes).flatten ++ zwjBytes) = true := by
    rw [List.isSuffixOf_iff_suffix]
    exact List.suffix_append (zwjBytes ++ (List.replicate c wjBytes).flatten) zwjBytes
  have hml : (zwjBytes ++ (List.replicate c wjBytes).flatten ++ zwjBytes).length
      = 3 + 3 * c + 3 := by
    rw [List.length_append, List.length_append, hlen]
    rfl
  simp only [decodeHeaderLevelBytes]
  rw [if_neg (by rw [not_not]; exact hpre), if_neg (by rw [not_not]; exact hsuf)]
  rw [hml]
  rw [show zwjBytes.length = 3 from rfl]
  rw [if_pos (by omega)]
  rw [show 3 + 3 * c + 3 - 3 - 3 = 3 * c by omega]
  rw [show (zwjBytes ++ (List.replicate c wjBytes).flatten ++ zwjBytes).drop 3 =
    (List.replicate c wjBytes).flatten ++ zwjBytes from rfl]
  rw [List.take_left' hlen]
  rw [countOcc_wj_flatten]
  rw [if_neg (by omega)]

/-- C8: the encode/clamp half of the claim holds — for every integer L,
decoding the marker produced by `HeaderStartMarker` yields L clamped into
1..6 — but the decode-total half fails: on the single rune ZWJ (the
three-byte marker that is its own prefix and suffix), `DecodeHeaderLevel`
slices `marker[3:0]` and panics (modelled as `none`) instead of returning
0 as the claim requires. -/
theorem c8_header_marker_decode :
    decodeHeaderLevelBytes zwjBytes = none ∧
    decodeHeaderLevelBytes zwjBytes ≠ some 0 ∧
    (∀ level : Int, decodeHeaderLevelBytes (headerStartMarkerBytes level) =
      some (headerClampSpec level)) := by
  refine ⟨by decide, by decide, ?_⟩
  intro level
  have hclamp : (if 6 < (if level < 1 then 1 else level) then 6
      else (if level < 1 then 1 else level)) = headerClampSpec level := by
    unfold headerClampSpec
    split_ifs <;> omega
  have henc : headerStartMarkerBytes level =
      zwjBytes ++ (List.replicate (headerClampSpec level).toNat wjBytes).flatten ++ zwjBytes := by
    simp only [headerStartMarkerBytes]
    rw [hclamp]
  have h0 : 0 ≤ headerClampSpec level := by
    unfold headerClampSpec
    split_ifs <;> omega
  have hc1 : 1 ≤ (headerClampSpec level).toNat := by
    unfold headerClampSpec at *
    split_ifs at * <;> omega
  have hc6 : (headerClampSpec level).toNat ≤ 6 := by
    unfold headerClampSpec at *
    split_ifs at * <;> omega
  rw [henc, decode_encode _ hc1 hc6]
  rw [Int.toNat_of_nonneg h0]

/-- C10: the claim fails on the stale-scroll scenario: the session holds
non-empty markdown, width 5 differs from the current width 0, the renderer
succeeds (SetWidth returns true) — yet the restored selection takes the
early return of `restoreScrollAndSelection`, skipping the final clamp, and
the session is left with scrollOffset 9 while only 3 lines are rendered,
outside [0, len(renderedLines) - 1]. -/
theorem c10_setwidth_scroll_clamp :
    c10SelectedS.markdown ≠ "" ∧
    (5 : Int) ≠ c10SelectedS.currentWidth ∧
    c10After.2 = true ∧
    c10After.1.renderedLines.length = 3 ∧
    c10After.1.scrollOffset = 9 ∧
    ¬ (0 ≤ c10After.1.scrollOffset ∧
       c10After.1.scrollOffset ≤ (c10After.1.renderedLines.length : Int) - 1) := by
  refine ⟨by decide, by decide, by decide, by decide, by decide, by decide⟩

/-! ## C6: path resolution -/

theorem splitOnSlash_ne_nil (l : List Char) : splitOnSlash l ≠ [] := by
  induction l with
  | nil => simp [splitOnSlash]
  | cons c t ih =>
      simp only [splitOnSlash]
      split_ifs
      · simp
      · cases h : splitOnSlash t <;> simp [h]

theorem splitOnSlash_slash (l : List Char) : splitOnSlash ('/' :: l) = [] :: splitOnSlash l := by
  simp [splitOnSlash]

theorem splitOnSlash_cons_ne {c : Char} (hc : ¬ c = '/') (l : List Char) {seg : List Char}
    {segs : List (List Char)} (h : splitOnSlash l = seg :: segs) :
    splitOnSlash (c :: l) = (c :: seg) :: segs := by
  simp [splitOnSlash, hc, h]

theorem isAbsChars_cons {l : List Char} (habs : isAbsChars l = true) : ∃ t, l = '/' :: t := by
  cases l with
  | nil => simp [isAbsChars] at habs
  | cons c t =>
      by_cases hc : c = '/'
      · exact ⟨t, by rw [hc]⟩
      · simp [isAbsChars, hc] at habs

theorem startSeg_iff (s : List Char) : ∀ l : List Char, '/' ∉ s →
    ((s ++ ['/']).isPrefixOf l = true ↔
      ∃ segs, splitOnSlash l = s :: segs ∧ segs ≠ []) := by
  induction s with
  | nil =>
      intro l _
      rw [List.isPrefixOf_iff_prefix, List.nil_append]
      cases l with
      | nil =>
          rw [List.prefix_nil]
          simp [splitOnSlash]
      | cons c t =>
          by_cases hc : c = '/'
          · subst hc
            rw [splitOnSlash_slash]
            constructor
            · intro _
              exact ⟨splitOnSlash t, rfl, splitOnSlash_ne_nil t⟩
            · intro _
              exact ⟨t, rfl⟩
          · constructor
            · intro hp
              rw [List.cons_prefix_cons] at hp
              exact absurd hp.1.symm hc
            · rintro ⟨segs, hsp, -⟩
              obtain ⟨seg, segs', h⟩ := List.exists_cons_of_ne_nil (splitOnSlash_ne_nil t)
              rw [splitOnSlash_cons_ne hc t h] at hsp
              injection hsp with h1 _
              exact absurd h1 (List.cons_ne_nil c seg)
  | cons a s' ih =>
      intro l hfree
      have ha : a ≠ '/' := by
        intro h
        subst h
        exact hfree (List.mem_cons_self _ _)
      have hfree' : '/' ∉ s' := fun hm => hfree (List.mem_cons_of_mem a hm)
      rw [List.isPrefixOf_iff_prefix, List.cons_append]
      cases l with
      | nil =>
          rw [List.prefix_nil]
          constructor
          · intro h
            exact absurd h (List.cons_ne_nil _ _)
          · rintro ⟨segs, hsp, -⟩
            rw [show splitOnSlash ([] : List Char) = [[]] from rfl] at hsp
            injection hsp with h1 _
            exact absurd h1.symm (List.cons_ne_nil a s')
      | cons c t =>
          rw [List.cons_prefix_cons]
          by_cases hc : c = '/'
          · subst hc
            rw [splitOnSlash_slash]
            constructor
            · rintro ⟨h1, -⟩
              exact absurd h1 ha
            · rintro ⟨segs, hsp, -⟩
              injection hsp with h1 _
              exact absurd h1.symm (List.cons_ne_nil a s')
          · obtain ⟨seg, segs', h⟩ := List.exists_cons_of_ne_nil (splitOnSlash_ne_nil t)
            rw [splitOnSlash_cons_ne hc t h]
            have hiff := ih t hfree'
            rw [List.isPrefixOf_iff_prefix, h] at hiff
            constructor
            · rintro ⟨hac, hp⟩
              subst hac
              obtain ⟨segs, hsp, hnn⟩ := hiff.mp hp
              injection hsp with e1 e2
              subst e1
              subst e2
              exact ⟨segs', rfl, hnn⟩
            · rintro ⟨segs, hsp, hnn⟩
              injection hsp with e1 e2
              injection e1 with ec es
              refine ⟨ec.symm, ?_⟩
              exact hiff.mpr ⟨segs, by rw [es, e2], hnn⟩

theorem bor_iff (a b : Bool) : (a || b) = true ↔ a = true ∨ b = true := by
  simp

theorem containsSeg_iff (s : List Char) (hne : s ≠ []) (hfree : '/' ∉ s) :
    ∀ l : List Char,
      (containsL l ('/' :: (s ++ ['/'])) = true ↔
        s ∈ ((splitOnSlash l).tail).dropLast) ∧
      ((startsWithL (s ++ ['/']) l || containsL l ('/' :: (s ++ ['/']))) = true ↔
        s ∈ (splitOnSlash l).dropLast) := by
  intro l
  induction l with
  | nil =>
      constructor
      · constructor
        · intro h
          simp [containsL] at h
        · intro h
          simp [splitOnSlash] at h
      · constructor
        · intro h
          rcases (bor_iff _ _).mp h with h1 | h2
          · unfold startsWithL at h1
            rw [List.isPrefixOf_iff_prefix, List.prefix_nil] at h1
            simp at h1
          · simp [containsL] at h2
        · intro h
          simp [splitOnSlash] at h
  | cons c t ih =>
      obtain ⟨ihC, ihT⟩ := ih
      by_cases hc : c = '/'
      · subst hc
        have hCstep : containsL ('/' :: t) ('/' :: (s ++ ['/'])) =
            (startsWithL (s ++ ['/']) t || containsL t ('/' :: (s ++ ['/']))) := rfl
        constructor
        · rw [hCstep, splitOnSlash_slash, List.tail_cons]
          exact ihT
        · have hsw : startsWithL (s ++ ['/']) ('/' :: t) = false := by
            obtain ⟨a, s2, rfl⟩ := List.exists_cons_of_ne_nil hne
            have ha : a ≠ '/' := by
              intro h
              subst h
              exact hfree (List.mem_cons_self _ _)
            show ((a :: s2) ++ ['/']).isPrefixOf ('/' :: t) = false
            rw [List.cons_append]
            rw [show (a :: (s2 ++ ['/'])).isPrefixOf ('/' :: t) =
              ((a == '/') && (s2 ++ ['/']).isPrefixOf t) from rfl]
            rw [beq_eq_false_iff_ne.mpr ha, Bool.false_and]
          rw [hsw, Bool.false_or, hCstep, splitOnSlash_slash]
          rw [List.dropLast_cons_of_ne_nil (splitOnSlash_ne_nil t), List.mem_cons]
          constructor
          · intro h
            exact Or.inr (ihT.mp h)
          · rintro (h | h)
            · exact absurd h hne
            · exact ihT.mpr h
      · obtain ⟨seg, segs, hsp⟩ := List.exists_cons_of_ne_nil (splitOnSlash_ne_nil t)
        have hspc := splitOnSlash_cons_ne hc t hsp
        have hCstep : containsL (c :: t) ('/' :: (s ++ ['/'])) =
            containsL t ('/' :: (s ++ ['/'])) := by
          show (('/' :: (s ++ ['/'])).isPrefixOf (c :: t) ||
            containsL t ('/' :: (s ++ ['/']))) = containsL t ('/' :: (s ++ ['/']))
          rw [show ('/' :: (s ++ ['/'])).isPrefixOf (c :: t) =
            ((('/' : Char) == c) && (s ++ ['/']).isPrefixOf t) from rfl]
          rw [beq_eq_false_iff_ne.mpr (fun h => hc h.symm), Bool.false_and, Bool.false_or]
        rw [hsp, List.tail_cons] at ihC
        constructor
        · rw [hCstep, hspc, List.tail_cons]
          exact ihC
        · rw [hspc, hCstep]
          have hstart := startSeg_iff s (c :: t) hfree
          rw [hspc] at hstart
          constructor
          · intro h
            rcases (bor_iff _ _).mp h with h1 | h2
            · obtain ⟨segs0, he, hnn⟩ := hstart.mp h1
              injection he with e1 e2
              have hsegs : segs ≠ [] := by
                rw [e2]
                exact hnn
              rw [List.dropLast_cons_of_ne_nil hsegs, List.mem_cons]
              exact Or.inl e1.symm
            · have hmem := ihC.mp h2
              have hsegs : segs ≠ [] := by
                intro h0
                rw [h0] at hmem
                simp at hmem
              rw [List.dropLast_cons_of_ne_nil hsegs, List.mem_cons]
              exact Or.inr hmem
          · intro hmem
            by_cases hsegs : segs = []
            · rw [hsegs] at hmem
              simp at hmem
            · rw [List.dropLast_cons_of_ne_nil hsegs, List.mem_cons] at hmem
              rcases hmem with h1 | h2
              · refine (bor_iff _ _).mpr (Or.inl ?_)
                exact hstart.mpr ⟨segs, by rw [h1], hsegs⟩
              · refine (bor_iff _ _).mpr (Or.inr ?_)
                exact ihC.mpr h2

theorem sensitiveRelSegs_ok {s : List Char} (hs : s ∈ sensitiveRelSegs) :
    s ≠ [] ∧ '/' ∉ s := by
  fin_cases hs <;> constructor <;> decide

theorem cdtC_iff (l : List Char) :
    (sensitiveRelSegs.any
      (fun s => startsWithL (s ++ ['/']) l || containsL l ('/' :: (s ++ ['/'])))) = true ↔
    ∃ s ∈ sensitiveRelSegs, s ∈ (splitOnSlash l).dropLast := by
  rw [List.any_eq_true]
  constructor
  · rintro ⟨s, hs, hp⟩
    obtain ⟨h1, h2⟩ := sensitiveRelSegs_ok hs
    exact ⟨s, hs, ((containsSeg_iff s h1 h2 l).2).mp hp⟩
  · rintro ⟨s, hs, hmem⟩
    obtain ⟨h1, h2⟩ := sensitiveRelSegs_ok hs
    exact ⟨s, hs, ((containsSeg_iff s h1 h2 l).2).mpr hmem⟩

theorem cdt_iff_spec (p : String) :
    containsDirectoryTraversal p = true ↔ specTraversalBlocked p := by
  unfold containsDirectoryTraversal specTraversalBlocked
  simp only [cdtChars]
  by_cases habs : isAbsChars p.data = true
  · rw [if_pos habs, if_pos habs, if_neg (not_not_intro habs)]
    obtain ⟨t, hp⟩ := isAbsChars_cons habs
    have hg1 : startsWithL "../".data p.data = false := by
      rw [hp]
      rfl
    have hg2 : decide (p.data = "..".data) = false := by
      apply decide_eq_false
      rw [hp]
      intro he
      injection he with e1 _
      exact absurd e1 (by decide)
    have hguard : ¬ ((startsWithL "../".data p.data || decide (p.data = "..".data)) = true) := by
      rw [hg1, hg2]
      decide
    rw [if_neg hguard]
    rw [Bool.or_false, Bool.or_false]
    rcases hL : splitOnSlash (cleanChars p.data) with _ | ⟨x, L2⟩
    · constructor
      · intro h
        exact absurd h Bool.false_ne_true
      · intro h
        exact absurd h (by decide)
    · rcases L2 with _ | ⟨second, rest⟩
      · constructor
        · intro h
          exact absurd h Bool.false_ne_true
        · intro h
          rw [List.getD_cons_succ] at h
          exact absurd h (by decide)
      · rw [List.getD_cons_succ, List.getD_cons_zero]
        show sensitiveAbsSegs.contains second = true ↔ second ∈ sensitiveAbsSegs
        exact List.elem_iff
  · rw [if_neg habs, if_neg habs, if_pos habs]
    rw [Bool.false_or]
    by_cases hguard : (startsWithL "../".data p.data || decide (p.data = "..".data)) = true
    · rw [if_pos hguard]
      rw [bor_iff, cdtC_iff]
      constructor
      · rintro (h12 | h3)
        · rcases (bor_iff _ _).mp h12 with h1 | h2
          · exact Or.inr ⟨hguard, Or.inl (of_decide_eq_true h1)⟩
          · rw [List.any_eq_true] at h2
            obtain ⟨x, hx, hcx⟩ := h2
            exact Or.inr ⟨hguard, Or.inr ⟨x, List.elem_iff.mp hcx, hx⟩⟩
        · exact Or.inl h3
      · rintro (h | ⟨-, hesc | hseg⟩)
        · exact Or.inr h
        · exact Or.inl ((bor_iff _ _).mpr (Or.inl (decide_eq_true hesc)))
        · obtain ⟨s, hs, hmem⟩ := hseg
          refine Or.inl ((bor_iff _ _).mpr (Or.inr ?_))
          rw [List.any_eq_true]
          exact ⟨s, hmem, List.elem_iff.mpr hs⟩
    · rw [if_neg hguard, Bool.false_or, cdtC_iff]
      constructor
      · intro h
        exact Or.inl h
      · rintro (h | ⟨hg, -⟩)
        · exact h
        · exact absurd hg hguard

theorem isHTTPURL_ne_empty {url : String} (h : isHTTPURL url = true) : url ≠ "" := by
  intro he
  rw [he] at h
  exact absurd h (by decide)

/-- C6: amended claim.  An HTTP or HTTPS URL is returned as-is; an empty
URL yields the empty string; otherwise the call returns the directory
traversal error exactly when the *amended* blocking condition holds: an
absolute path whose first *cleaned* segment is etc, sys, proc or root; a
relative path with a sensitive segment (etc, var, usr, sys, proc, root)
followed by a slash; or a path beginning with `../` (or equal to `..`)
whose *cleaned* form either starts with more than one parent-directory
escape or has any segment equal to a sensitive name. -/
theorem c6_path_resolution :
    ∀ (fe : String → Bool) (url src : String) (roots : List String),
      (url = "" → resolveMarkdownPath fe url src roots = Except.ok "") ∧
      (isHTTPURL url = true → resolveMarkdownPath fe url src roots = Except.ok url) ∧
      (resolveMarkdownPath fe url src roots = Except.error ResolveError.directoryTraversal ↔
        (url ≠ "" ∧ isHTTPURL url = false ∧ specTraversalBlocked url)) := by
  intro fe url src roots
  refine ⟨?_, ?_, ?_⟩
  · intro he
    subst he
    rfl
  · intro hh
    unfold resolveMarkdownPath
    rw [if_neg (isHTTPURL_ne_empty hh), if_pos hh]
  · by_cases he : url = ""
    · subst he
      constructor
      · intro h
        unfold resolveMarkdownPath at h
        rw [if_pos rfl] at h
        simp at h
      · rintro ⟨h, -, -⟩
        exact absurd rfl h
    · by_cases hh : isHTTPURL url = true
      · constructor
        · intro h
          unfold resolveMarkdownPath at h
          rw [if_neg he, if_pos hh] at h
          simp at h
        · rintro ⟨-, hf, -⟩
          rw [hh] at hf
          exact absurd hf (by decide)
      · have hh' : isHTTPURL url = false := Bool.eq_false_iff.mpr hh
        simp only [resolveMarkdownPath]
        rw [if_neg he, if_neg hh]
        by_cases hdt : containsDirectoryTraversal url = true
        · rw [if_pos hdt]
          constructor
          · intro _
            exact ⟨he, hh', (cdt_iff_spec url).mp hdt⟩
          · intro _
            rfl
        · rw [if_neg hdt]
          have hnotspec : ¬ specTraversalBlocked url :=
            fun hs => hdt ((cdt_iff_spec url).mpr hs)
          constructor
          · intro h
            exfalso
            by_cases hab : filepathIsAbs url = true
            · rw [if_pos hab] at h
              split_ifs at h
              all_goals simp at h
            · rw [if_neg hab] at h
              split at h
              · simp at h
              · split at h <;> simp at h
          · rintro ⟨-, -, hs⟩
            exact absurd hs hnotspec

/-- C6 counterexample: the claim as stated is false.  The link URL
`../etc` is rejected by `containsDirectoryTraversal` (the code scans every
segment of the cleaned `../`-path for sensitive names, including the final
segment), but the claim blocks a relative path only for a sensitive
segment followed by a slash or an escape depth above one — `../etc` has
neither. -/
theorem c6_path_resolution_counterexample :
    resolveMarkdownPath (fun _ => false) "../etc" "" [] =
      Except.error ResolveError.directoryTraversal ∧
    ¬ specTraversalBlockedOrig "../etc" := ⟨rfl, by decide⟩

/-- C6 witness: the amended theorem applied at concrete inputs — the
relative URL `etc/passwd` is blocked, the empty URL resolves to the empty
string, and an HTTP URL is returned as-is. -/
theorem c6_path_resolution_witness :
    resolveMarkdownPath (fun _ => false) "etc/passwd" "" [] =
      Except.error ResolveError.directoryTraversal ∧
    specTraversalBlocked "etc/passwd" ∧
    resolveMarkdownPath (fun _ => false) "" "" [] = Except.ok "" ∧
    resolveMarkdownPath (fun _ => false) "http://x" "" [] = Except.ok "http://x" := by
  have h1 := c6_path_resolution (fun _ => false) "etc/passwd" "" []
  have h2 := c6_path_resolution (fun _ => false) "" "" []
  have h3 := c6_path_resolution (fun _ => false) "http://x" "" []
  exact ⟨h1.2.2.mpr ⟨by decide, by decide, by decide⟩, by decide, h2.1 rfl, h3.2.1 (by decide)⟩

end Navidown
